import Mathlib

/-!
# goSwarm (`vanilla/swarm.go`): the flocking core

A shallow embedding of the simulation core of `swarm.go`: the `boid` record, the
five rules, `move`, `neighbours`, and the boid-updating loop of `run`.

`float64` is read as exact real arithmetic (`ℝ`), so the definitions that compare
or take square roots of reals are not executable; they are evaluated on concrete
inputs by rewriting.  `pixel.Vec` is the vector type of the `faiface/pixel`
library: a pair of `float64` with `Add`, `Sub`, `Scaled`, `Len` (`math.Hypot`)
and `Angle` (`math.Atan2`).

Pointers into the slice `guys` are modelled as indices into the list of boids.
-/

set_option autoImplicit false

noncomputable section

namespace Swarm

/-! ## `pixel.Vec` -/

/-- The type `pixel.Vec`: a 2D vector with coordinates `X` and `Y`. -/
structure Vec where
  X : ℝ
  Y : ℝ

/-- The zero vector `pixel.ZV`. -/
def ZV : Vec := ⟨0, 0⟩

/-- The method `Vec.Add`: componentwise sum. -/
def Vec.Add (u v : Vec) : Vec := ⟨u.X + v.X, u.Y + v.Y⟩

/-- The method `Vec.Sub`: componentwise difference. -/
def Vec.Sub (u v : Vec) : Vec := ⟨u.X - v.X, u.Y - v.Y⟩

/-- The method `Vec.Scaled`: multiplication by a scalar. -/
def Vec.Scaled (u : Vec) (c : ℝ) : Vec := ⟨u.X * c, u.Y * c⟩

/-- The method `Vec.Len`, which is `math.Hypot(u.X, u.Y)`. -/
def Vec.Len (u : Vec) : ℝ := Real.sqrt (u.X * u.X + u.Y * u.Y)

/-- The method `Vec.Angle`, which is `math.Atan2(u.Y, u.X)`: the argument of
`X + iY` in `(-π, π]`, and `0` for the zero vector. -/
def Vec.Angle (u : Vec) : ℝ := Complex.arg ⟨u.X, u.Y⟩

/-! ## Constants -/

def screenmaxX : ℝ := 800
def screenmaxY : ℝ := 800
def neighbourhood : ℝ := 70.0
def swarmsize : Nat := 950

/-- Adjusts the strength of all the swarming factors together. -/
def f : ℝ := 1.2

def personalSpaceSize : ℝ := 16.0
def personalSpacePower : ℝ := 0.014 * f

def boidTightness : ℝ := 0.007 * f
def speedCap : ℝ := 6.0

def copycatPower : ℝ := 0.014 * f

/-! ## The boid and its rules -/

/-- The struct `boid`. -/
structure boid where
  vel : Vec
  loc : Vec
  angle : ℝ

/-- Struct comparison `b != x` of Go compares all fields. -/
instance : DecidableEq boid := Classical.decEq boid

/-- The method `move`. -/
def move (b : boid) : boid :=
  let b := { b with loc := b.loc.Add b.vel }
  { b with angle := b.vel.Angle }

/-- The method `ruleStayOnScreen`. -/
def ruleStayOnScreen (b : boid) : boid :=
  let b : boid :=
    if b.loc.X < 0 then
      { b with vel := ⟨b.vel.X * -1, b.vel.Y⟩, loc := ⟨0, b.loc.Y⟩ }
    else if b.loc.X > screenmaxX then
      { b with vel := ⟨b.vel.X * -1, b.vel.Y⟩, loc := ⟨screenmaxX, b.loc.Y⟩ }
    else b
  if b.loc.Y < 0 then
    { b with vel := ⟨b.vel.X, b.vel.Y * -1⟩, loc := ⟨b.loc.X, 0⟩ }
  else if b.loc.Y > screenmaxY then
    { b with vel := ⟨b.vel.X, b.vel.Y * -1⟩, loc := ⟨b.loc.X, screenmaxY⟩ }
  else b

/-- The method `ruleGetClose`; `neighs` holds the boids the pointers refer to. -/
def ruleGetClose (b : boid) (neighs : List boid) : boid :=
  if neighs.length ≤ 0 then b
  else
    let mid := neighs.foldl (fun mid x => mid.Add x.loc) ZV
    let mid := mid.Scaled (1 / (neighs.length : ℝ))
    let delta := (mid.Sub b.loc).Scaled boidTightness
    { b with vel := b.vel.Add delta }

/-- The method `ruleDontCrowd`. -/
def ruleDontCrowd (b : boid) (neighs : List boid) : boid :=
  if neighs.length ≤ 0 then b
  else
    let mid := neighs.foldl
      (fun mid x => if (b.loc.Sub x.loc).Len < personalSpaceSize then mid.Add (b.loc.Sub x.loc) else mid)
      ZV
    { b with vel := b.vel.Add (mid.Scaled personalSpacePower) }

/-- The method `ruleMatchVelocity`. -/
def ruleMatchVelocity (b : boid) (neighs : List boid) : boid :=
  if neighs.length ≤ 0 then b
  else
    let average := neighs.foldl (fun average x => average.Add x.vel) ZV
    let average := average.Scaled (1 / (neighs.length : ℝ))
    let delta := (average.Sub b.vel).Scaled copycatPower
    { b with vel := b.vel.Add delta }

/-- The method `ruleSpeedCap`. -/
def ruleSpeedCap (b : boid) : boid :=
  let speed := b.vel.Len
  if speed > speedCap then { b with vel := b.vel.Scaled (speedCap / speed) } else b

/-- The loop of `neighbours` from index `i` on, over the rest of the slice: the
pointer `&(*swarm)[i]` is kept as the index `i`. -/
def neighboursFrom (b : boid) : Nat → List boid → List Nat
  | _, [] => []
  | i, x :: rest =>
    if (b.loc.Sub x.loc).Len < neighbourhood ∧ b ≠ x then i :: neighboursFrom b (i + 1) rest
    else neighboursFrom b (i + 1) rest

/-- The method `neighbours`: the receiver `b` is a copy, the result is a list of
pointers into `swarm`. -/
def neighbours (b : boid) (swarm : List boid) : List Nat := neighboursFrom b 0 swarm

/-! ## The update loop of `run` -/

/-- Reading the boids a list of pointers refers to. -/
def deref (guys : List boid) (neighs : List Nat) : List boid :=
  neighs.filterMap (fun j => guys[j]?)

/-- A method call through the pointer `g = &guys[i]`: the boid at index `i` is
replaced by the method's result. -/
def call (guys : List boid) (i : Nat) (m : boid → boid) : List boid :=
  match guys[i]? with
  | some g => guys.set i (m g)
  | none => guys

/-- The body of the loop `for i := 0; i < len(guys); i++` of `run`, without the
drawing: each rule reads its neighbours from the slice as it is when called. -/
def updateBoid (guys : List boid) (i : Nat) : List boid :=
  match guys[i]? with
  | none => guys
  | some g =>
    let neighs := neighbours g guys
    let guys1 := call guys i (fun b => ruleGetClose b (deref guys neighs))
    let guys2 := call guys1 i (fun b => ruleDontCrowd b (deref guys1 neighs))
    let guys3 := call guys2 i (fun b => ruleMatchVelocity b (deref guys2 neighs))
    let guys4 := call guys3 i ruleStayOnScreen
    let guys5 := call guys4 i ruleSpeedCap
    call guys5 i move

/-- One frame: the boid-updating loop of `run` over the whole slice. -/
def frame (guys : List boid) : List boid :=
  (List.range guys.length).foldl updateBoid guys

/-- The six calls of the loop body in the order of `run`, on one boid with the
boids `ns` its neighbour pointers refer to. -/
def pipeline (g : boid) (ns : List boid) : boid :=
  move (ruleSpeedCap (ruleStayOnScreen
    (ruleMatchVelocity (ruleDontCrowd (ruleGetClose g ns) ns) ns)))

/-! ## Checked division -/

/-- Division of `float64` made fallible: no result on a zero divisor, where Go
yields an infinity or a NaN. -/
def divide (a b : ℝ) : Option ℝ := if b = 0 then none else some (a / b)

/-- The method `ruleGetClose` with its division `1 / float64(len(neighs))`
checked. -/
def ruleGetCloseChecked (b : boid) (neighs : List boid) : Option boid :=
  if neighs.length ≤ 0 then some b
  else
    let mid := neighs.foldl (fun mid x => mid.Add x.loc) ZV
    match divide 1 (neighs.length : ℝ) with
    | none => none
    | some q =>
      let mid := mid.Scaled q
      let delta := (mid.Sub b.loc).Scaled boidTightness
      some { b with vel := b.vel.Add delta }

/-- The method `ruleMatchVelocity` with its division `1 / float64(len(neighs))`
checked. -/
def ruleMatchVelocityChecked (b : boid) (neighs : List boid) : Option boid :=
  if neighs.length ≤ 0 then some b
  else
    let average := neighs.foldl (fun average x => average.Add x.vel) ZV
    match divide 1 (neighs.length : ℝ) with
    | none => none
    | some q =>
      let average := average.Scaled q
      let delta := (average.Sub b.vel).Scaled copycatPower
      some { b with vel := b.vel.Add delta }

/-- The method `ruleSpeedCap` with its division `speedCap / speed` checked. -/
def ruleSpeedCapChecked (b : boid) : Option boid :=
  let speed := b.vel.Len
  if speed > speedCap then
    match divide speedCap speed with
    | none => none
    | some q => some { b with vel := b.vel.Scaled q }
  else some b

/-! ## The synchronized update -/

/-- The synchronized update that the sequential loop of `run` is contrasted
with: every boid goes through the same six calls, but its neighbours and their
states are read from the population as it was before the frame. -/
def frameSynchronized (guys : List boid) : List boid :=
  guys.map (fun g => pipeline g (deref guys (neighbours g guys)))

/-! ## Vector lemmas -/

theorem Vec.ext_iff2 (u v : Vec) : u = v ↔ u.X = v.X ∧ u.Y = v.Y := by
  cases u; cases v; simp

theorem Vec.Len_nonneg (u : Vec) : 0 ≤ u.Len := Real.sqrt_nonneg _

theorem Vec.sumsq_nonneg (u : Vec) : 0 ≤ u.X * u.X + u.Y * u.Y :=
  add_nonneg (mul_self_nonneg _) (mul_self_nonneg _)

theorem Vec.Len_mul_self (u : Vec) : u.Len * u.Len = u.X * u.X + u.Y * u.Y :=
  Real.mul_self_sqrt u.sumsq_nonneg

theorem Vec.Len_Scaled (u : Vec) (c : ℝ) (hc : 0 ≤ c) : (u.Scaled c).Len = c * u.Len := by
  unfold Vec.Len Vec.Scaled
  have h : u.X * c * (u.X * c) + u.Y * c * (u.Y * c) = c ^ 2 * (u.X * u.X + u.Y * u.Y) := by ring
  rw [h, Real.sqrt_mul (sq_nonneg c), Real.sqrt_sq hc]

theorem Vec.Len_le_iff (u : Vec) (c : ℝ) (hc : 0 ≤ c) :
    u.Len ≤ c ↔ u.X * u.X + u.Y * u.Y ≤ c ^ 2 := by
  unfold Vec.Len
  exact Real.sqrt_le_left hc

theorem Vec.Len_lt_iff (u : Vec) (c : ℝ) (hc : 0 < c) :
    u.Len < c ↔ u.X * u.X + u.Y * u.Y < c ^ 2 := by
  unfold Vec.Len
  exact Real.sqrt_lt' hc

theorem Vec.abs_X_le_Len (u : Vec) : |u.X| ≤ u.Len := by
  unfold Vec.Len
  apply Real.abs_le_sqrt
  nlinarith [mul_self_nonneg u.Y]

theorem Vec.abs_Y_le_Len (u : Vec) : |u.Y| ≤ u.Len := by
  unfold Vec.Len
  apply Real.abs_le_sqrt
  nlinarith [mul_self_nonneg u.X]

/-! ## The accumulating loops of the rules -/

theorem foldl_Add_loc (neighs : List boid) (a : Vec) :
    neighs.foldl (fun mid x => mid.Add x.loc) a
      = ⟨a.X + (neighs.map (fun x => x.loc.X)).sum, a.Y + (neighs.map (fun x => x.loc.Y)).sum⟩ := by
  induction neighs generalizing a with
  | nil => simp
  | cons x rest ih =>
    rw [List.foldl_cons, ih]
    simp [Vec.Add, add_assoc]

theorem foldl_Add_vel (neighs : List boid) (a : Vec) :
    neighs.foldl (fun average x => average.Add x.vel) a
      = ⟨a.X + (neighs.map (fun x => x.vel.X)).sum, a.Y + (neighs.map (fun x => x.vel.Y)).sum⟩ := by
  induction neighs generalizing a with
  | nil => simp
  | cons x rest ih =>
    rw [List.foldl_cons, ih]
    simp [Vec.Add, add_assoc]

theorem foldl_crowd (b : boid) (neighs : List boid) (a : Vec) :
    neighs.foldl
        (fun mid x => if (b.loc.Sub x.loc).Len < personalSpaceSize then mid.Add (b.loc.Sub x.loc) else mid) a
      = ⟨a.X + ((neighs.filter (fun x => decide ((b.loc.Sub x.loc).Len < personalSpaceSize))).map
            (fun x => b.loc.X - x.loc.X)).sum,
         a.Y + ((neighs.filter (fun x => decide ((b.loc.Sub x.loc).Len < personalSpaceSize))).map
            (fun x => b.loc.Y - x.loc.Y)).sum⟩ := by
  induction neighs generalizing a with
  | nil => simp
  | cons x rest ih =>
    by_cases h : (b.loc.Sub x.loc).Len < personalSpaceSize
    · rw [List.foldl_cons, ih, if_pos h, List.filter_cons_of_pos (by simpa using h)]
      simp [Vec.Add, Vec.Sub, add_assoc]
    · rw [List.foldl_cons, ih, if_neg h, List.filter_cons_of_neg (by simpa using h)]

/-! ## The neighbour loop -/

theorem mem_neighboursFrom (b : boid) (swarm : List boid) (k j : Nat) :
    j ∈ neighboursFrom b k swarm ↔
      ∃ x, k ≤ j ∧ swarm[j - k]? = some x ∧ (b.loc.Sub x.loc).Len < neighbourhood ∧ b ≠ x := by
  induction swarm generalizing k with
  | nil => simp [neighboursFrom]
  | cons y rest ih =>
    have hrest : j ∈ neighboursFrom b (k + 1) rest ↔
        ∃ x, k < j ∧ (y :: rest)[j - k]? = some x ∧
          (b.loc.Sub x.loc).Len < neighbourhood ∧ b ≠ x := by
      rw [ih (k + 1)]
      constructor
      · rintro ⟨x, hk, hx, hd⟩
        refine ⟨x, hk, ?_, hd⟩
        have e : j - k = (j - (k + 1)) + 1 := by omega
        rw [e, List.getElem?_cons_succ]
        exact hx
      · rintro ⟨x, hk, hx, hd⟩
        refine ⟨x, hk, ?_, hd⟩
        have e : j - k = (j - (k + 1)) + 1 := by omega
        rw [e, List.getElem?_cons_succ] at hx
        exact hx
    unfold neighboursFrom
    by_cases hc : (b.loc.Sub y.loc).Len < neighbourhood ∧ b ≠ y
    · rw [if_pos hc, List.mem_cons, hrest]
      constructor
      · rintro (rfl | ⟨x, hk, hx, hd⟩)
        · exact ⟨y, le_refl _, by simp, hc⟩
        · exact ⟨x, le_of_lt hk, hx, hd⟩
      · rintro ⟨x, hk, hx, hd⟩
        rcases Nat.eq_or_lt_of_le hk with e | hlt
        · exact Or.inl e.symm
        · exact Or.inr ⟨x, hlt, hx, hd⟩
    · rw [if_neg hc, hrest]
      constructor
      · rintro ⟨x, hk, hx, hd⟩
        exact ⟨x, le_of_lt hk, hx, hd⟩
      · rintro ⟨x, hk, hx, hd⟩
        rcases Nat.eq_or_lt_of_le hk with e | hlt
        · subst e
          simp at hx
          subst hx
          exact absurd hd hc
        · exact ⟨x, hlt, hx, hd⟩

theorem mem_neighbours (b : boid) (swarm : List boid) (j : Nat) :
    j ∈ neighbours b swarm ↔
      ∃ x, swarm[j]? = some x ∧ (b.loc.Sub x.loc).Len < neighbourhood ∧ b ≠ x := by
  unfold neighbours
  rw [mem_neighboursFrom]
  simp

theorem neighboursFrom_sorted (b : boid) (swarm : List boid) (k : Nat) :
    (neighboursFrom b k swarm).Sorted (· < ·) := by
  induction swarm generalizing k with
  | nil => simp [neighboursFrom]
  | cons y rest ih =>
    unfold neighboursFrom
    split
    · rw [List.sorted_cons]
      refine ⟨?_, ih (k + 1)⟩
      intro j hj
      rw [mem_neighboursFrom] at hj
      obtain ⟨x, hk, _⟩ := hj
      omega
    · exact ih (k + 1)

theorem self_not_mem_neighbours (swarm : List boid) (i : Nat) (b : boid)
    (hb : swarm[i]? = some b) : i ∉ neighbours b swarm := by
  rw [mem_neighbours]
  rintro ⟨x, hx, _, hne⟩
  rw [hb] at hx
  exact hne (Option.some.inj hx)

/-! ## The loop body and the frame -/

theorem deref_set (guys : List boid) (neighs : List Nat) (i : Nat) (x : boid)
    (hi : i ∉ neighs) : deref (guys.set i x) neighs = deref guys neighs := by
  unfold deref
  apply List.filterMap_congr
  intro j hj
  have hne : i ≠ j := fun e => hi (e ▸ hj)
  exact List.getElem?_set_ne hne

theorem call_eq (guys : List boid) (i : Nat) (m : boid → boid) (g : boid)
    (hg : guys[i]? = some g) : call guys i m = guys.set i (m g) := by
  unfold call
  rw [hg]

theorem getElem?_set_self_of_some (guys : List boid) (i : Nat) (g x : boid)
    (hg : guys[i]? = some g) : (guys.set i x)[i]? = some x := by
  have hlt : i < guys.length := by
    rcases List.getElem?_eq_some_iff.mp hg with ⟨h, _⟩
    exact h
  rw [List.getElem?_set_self hlt]

theorem updateBoid_eq (guys : List boid) (i : Nat) (g : boid) (hg : guys[i]? = some g) :
    updateBoid guys i = guys.set i (pipeline g (deref guys (neighbours g guys))) := by
  have hself := self_not_mem_neighbours guys i g hg
  unfold updateBoid pipeline
  rw [hg]
  simp only
  have h1 := getElem?_set_self_of_some guys i g
    (ruleGetClose g (deref guys (neighbours g guys))) hg
  rw [call_eq guys i _ g hg]
  rw [call_eq _ i _ _ h1, deref_set _ _ _ _ hself, List.set_set]
  have h2 := getElem?_set_self_of_some guys i g
    (ruleDontCrowd (ruleGetClose g (deref guys (neighbours g guys)))
      (deref guys (neighbours g guys))) hg
  rw [call_eq _ i _ _ h2, deref_set _ _ _ _ hself, List.set_set]
  have h3 := getElem?_set_self_of_some guys i g
    (ruleMatchVelocity (ruleDontCrowd (ruleGetClose g (deref guys (neighbours g guys)))
      (deref guys (neighbours g guys))) (deref guys (neighbours g guys))) hg
  rw [call_eq _ i _ _ h3, List.set_set]
  have h4 := getElem?_set_self_of_some guys i g
    (ruleStayOnScreen (ruleMatchVelocity (ruleDontCrowd (ruleGetClose g
      (deref guys (neighbours g guys))) (deref guys (neighbours g guys)))
      (deref guys (neighbours g guys)))) hg
  rw [call_eq _ i _ _ h4, List.set_set]
  have h5 := getElem?_set_self_of_some guys i g
    (ruleSpeedCap (ruleStayOnScreen (ruleMatchVelocity (ruleDontCrowd (ruleGetClose g
      (deref guys (neighbours g guys))) (deref guys (neighbours g guys)))
      (deref guys (neighbours g guys))))) hg
  rw [call_eq _ i _ _ h5, List.set_set]

theorem length_updateBoid (guys : List boid) (i : Nat) :
    (updateBoid guys i).length = guys.length := by
  cases hg : guys[i]? with
  | none => simp [updateBoid, hg]
  | some g => rw [updateBoid_eq guys i g hg, List.length_set]

theorem foldl_updateBoid_inv (P : boid → Prop) (hP : ∀ g ns, P (pipeline g ns))
    (guys : List boid) (k : Nat) :
    ((List.range k).foldl updateBoid guys).length = guys.length ∧
      ∀ i, i < k → ∀ b, ((List.range k).foldl updateBoid guys)[i]? = some b → P b := by
  induction k with
  | zero => simp
  | succ k ih =>
    obtain ⟨hlen, hprev⟩ := ih
    rw [List.range_succ, List.foldl_append, List.foldl_cons, List.foldl_nil]
    refine ⟨by rw [length_updateBoid, hlen], ?_⟩
    intro i hi b hb
    cases hg : ((List.range k).foldl updateBoid guys)[k]? with
    | none =>
      have hnone : i < ((List.range k).foldl updateBoid guys).length := by
        have hb2 := hb
        simp only [updateBoid, hg] at hb2
        exact (List.getElem?_eq_some_iff.mp hb2).1
      have hklen := List.getElem?_eq_none_iff.mp hg
      have hik : i < k := by omega
      simp only [updateBoid, hg] at hb
      exact hprev i hik b hb
    | some g =>
      rw [updateBoid_eq _ k g hg] at hb
      by_cases hik : i = k
      · subst hik
        rw [getElem?_set_self_of_some _ i g _ hg] at hb
        rw [← Option.some.inj hb]
        exact hP _ _
      · rw [List.getElem?_set_ne (Ne.symm hik)] at hb
        exact hprev i (by omega) b hb

theorem length_frame (guys : List boid) : (frame guys).length = guys.length :=
  (foldl_updateBoid_inv (fun _ => True) (fun _ _ => trivial) guys guys.length).1

theorem frame_forall (P : boid → Prop) (hP : ∀ g ns, P (pipeline g ns))
    (guys : List boid) (b : boid) (hb : b ∈ frame guys) : P b := by
  obtain ⟨i, hi, rfl⟩ := List.mem_iff_getElem.mp hb
  have hi2 : i < guys.length := by rw [← length_frame]; exact hi
  exact (foldl_updateBoid_inv P hP guys guys.length).2 i hi2 _
    (List.getElem?_eq_getElem hi)

/-! ## Single rules -/

theorem speedCap_pos : (0 : ℝ) < speedCap := by unfold speedCap; norm_num

theorem ruleSpeedCap_of_gt (b : boid) (h : b.vel.Len > speedCap) :
    ruleSpeedCap b = { b with vel := b.vel.Scaled (speedCap / b.vel.Len) } := by
  unfold ruleSpeedCap
  simp only
  rw [if_pos h]

theorem ruleSpeedCap_of_le (b : boid) (h : b.vel.Len ≤ speedCap) : ruleSpeedCap b = b := by
  unfold ruleSpeedCap
  simp only
  rw [if_neg (not_lt.mpr h)]

theorem Len_Scaled_cap (v : Vec) (h : v.Len > speedCap) :
    (v.Scaled (speedCap / v.Len)).Len = speedCap := by
  have hpos : 0 < v.Len := lt_trans speedCap_pos h
  rw [Vec.Len_Scaled _ _ (le_of_lt (div_pos speedCap_pos hpos))]
  exact div_mul_cancel₀ _ (ne_of_gt hpos)

theorem ruleSpeedCap_Len_le (b : boid) : (ruleSpeedCap b).vel.Len ≤ speedCap := by
  by_cases h : b.vel.Len > speedCap
  · rw [ruleSpeedCap_of_gt b h]
    exact le_of_eq (Len_Scaled_cap b.vel h)
  · rw [ruleSpeedCap_of_le b (not_lt.mp h)]
    exact not_lt.mp h

theorem ruleSpeedCap_loc (b : boid) : (ruleSpeedCap b).loc = b.loc := by
  unfold ruleSpeedCap
  simp only
  split <;> rfl

theorem ruleSpeedCap_angle (b : boid) : (ruleSpeedCap b).angle = b.angle := by
  unfold ruleSpeedCap
  simp only
  split <;> rfl

theorem ruleStayOnScreen_X (b : boid) :
    (ruleStayOnScreen b).loc.X =
        (if b.loc.X < 0 then 0 else if b.loc.X > screenmaxX then screenmaxX else b.loc.X) ∧
      (ruleStayOnScreen b).vel.X =
        (if b.loc.X < 0 then -b.vel.X else if b.loc.X > screenmaxX then -b.vel.X else b.vel.X) := by
  unfold ruleStayOnScreen
  simp only [mul_neg, mul_one]
  split_ifs <;> simp_all

theorem ruleStayOnScreen_Y (b : boid) :
    (ruleStayOnScreen b).loc.Y =
        (if b.loc.Y < 0 then 0 else if b.loc.Y > screenmaxY then screenmaxY else b.loc.Y) ∧
      (ruleStayOnScreen b).vel.Y =
        (if b.loc.Y < 0 then -b.vel.Y else if b.loc.Y > screenmaxY then -b.vel.Y else b.vel.Y) := by
  unfold ruleStayOnScreen
  simp only [mul_neg, mul_one]
  split_ifs <;> simp_all

theorem ruleStayOnScreen_angle (b : boid) : (ruleStayOnScreen b).angle = b.angle := by
  unfold ruleStayOnScreen
  simp only
  split_ifs <;> rfl

theorem ruleStayOnScreen_box (b : boid) :
    0 ≤ (ruleStayOnScreen b).loc.X ∧ (ruleStayOnScreen b).loc.X ≤ screenmaxX ∧
      0 ≤ (ruleStayOnScreen b).loc.Y ∧ (ruleStayOnScreen b).loc.Y ≤ screenmaxY := by
  rw [(ruleStayOnScreen_X b).1, (ruleStayOnScreen_Y b).1]
  have hx : (0 : ℝ) ≤ screenmaxX := by unfold screenmaxX; norm_num
  have hy : (0 : ℝ) ≤ screenmaxY := by unfold screenmaxY; norm_num
  refine ⟨?_, ?_, ?_, ?_⟩ <;> split_ifs <;> linarith

theorem pipeline_vel_Len (g : boid) (ns : List boid) : (pipeline g ns).vel.Len ≤ speedCap := by
  unfold pipeline move
  exact ruleSpeedCap_Len_le _

theorem pipeline_loc (g : boid) (ns : List boid) :
    (pipeline g ns).loc =
      (ruleStayOnScreen (ruleMatchVelocity (ruleDontCrowd (ruleGetClose g ns) ns) ns)).loc.Add
        (pipeline g ns).vel := by
  unfold pipeline move
  simp only [ruleSpeedCap_loc]

theorem updateBoid_getElem?_ne (guys : List boid) (k i : Nat) (h : i ≠ k) :
    (updateBoid guys k)[i]? = guys[i]? := by
  cases hg : guys[k]? with
  | none => simp [updateBoid, hg]
  | some g => rw [updateBoid_eq guys k g hg, List.getElem?_set_ne (Ne.symm h)]

theorem foldl_updateBoid_getElem?_ge (guys : List boid) (k i : Nat) (h : k ≤ i) :
    ((List.range k).foldl updateBoid guys)[i]? = guys[i]? := by
  induction k with
  | zero => simp
  | succ k ih =>
    rw [List.range_succ, List.foldl_append, List.foldl_cons, List.foldl_nil,
      updateBoid_getElem?_ne _ _ _ (by omega), ih (by omega)]

theorem foldl_updateBoid_getElem?_lt (guys : List boid) (k i : Nat) (g : boid) (h : i < k)
    (hg : guys[i]? = some g) :
    ((List.range k).foldl updateBoid guys)[i]? =
      some (pipeline g (deref ((List.range i).foldl updateBoid guys)
        (neighbours g ((List.range i).foldl updateBoid guys)))) := by
  induction k with
  | zero => omega
  | succ k ih =>
    rw [List.range_succ, List.foldl_append, List.foldl_cons, List.foldl_nil]
    by_cases hik : i = k
    · subst hik
      have hcur : ((List.range i).foldl updateBoid guys)[i]? = some g := by
        rw [foldl_updateBoid_getElem?_ge guys i i (le_refl _), hg]
      rw [updateBoid_eq _ i g hcur, getElem?_set_self_of_some _ i g _ hcur]
    · rw [updateBoid_getElem?_ne _ _ _ hik, ih (by omega)]

theorem frame_getElem? (guys : List boid) (i : Nat) (g : boid) (hg : guys[i]? = some g) :
    (frame guys)[i]? =
      some (pipeline g (deref ((List.range i).foldl updateBoid guys)
        (neighbours g ((List.range i).foldl updateBoid guys)))) := by
  unfold frame
  exact foldl_updateBoid_getElem?_lt guys guys.length i g
    (List.getElem?_eq_some_iff.mp hg).1 hg

theorem frame_single (b : boid) : frame [b] = [move (ruleSpeedCap (ruleStayOnScreen b))] := by
  have h : updateBoid [b] 0 = [b].set 0 (pipeline b (deref [b] (neighbours b [b]))) :=
    updateBoid_eq [b] 0 b rfl
  have hn : neighbours b [b] = [] := by simp [neighbours, neighboursFrom]
  rw [hn] at h
  simpa [frame, List.range_succ, pipeline, deref, ruleGetClose, ruleDontCrowd,
    ruleMatchVelocity] using h

/-! ## Containment and speed bound after a frame -/

/-- C1, as stated, fails: a lone boid at `(799, 400)` with velocity `(5, 0)` is
inside the screen, is not reflected, keeps its speed `5 ≤ speedCap`, and `move`
puts it at `X = 804 > screenmaxX`. -/
theorem frame_containment_fails :
    ∃ b ∈ frame [⟨⟨5, 0⟩, ⟨799, 400⟩, 0⟩], ¬ (b.loc.X ≤ screenmaxX) := by
  refine ⟨move (ruleSpeedCap (ruleStayOnScreen ⟨⟨5, 0⟩, ⟨799, 400⟩, 0⟩)), ?_, ?_⟩
  · rw [frame_single]
    exact List.mem_singleton_self _
  · have hs : ruleStayOnScreen ⟨⟨5, 0⟩, ⟨799, 400⟩, 0⟩ = ⟨⟨5, 0⟩, ⟨799, 400⟩, 0⟩ := by
      unfold ruleStayOnScreen
      norm_num [screenmaxX, screenmaxY]
    have hc : ruleSpeedCap ⟨⟨5, 0⟩, ⟨799, 400⟩, 0⟩ = ⟨⟨5, 0⟩, ⟨799, 400⟩, 0⟩ := by
      apply ruleSpeedCap_of_le
      rw [Vec.Len_le_iff _ _ (le_of_lt speedCap_pos)]
      norm_num [speedCap]
    rw [hs, hc]
    norm_num [move, Vec.Add, screenmaxX]

/-- C1, amended: after one frame every boid's position is its post-step velocity
added to a point of the screen, the position `ruleStayOnScreen` left:
`0 ≤ loc.X - vel.X ≤ screenmaxX` and `0 ≤ loc.Y - vel.Y ≤ screenmaxY`. -/
theorem frame_loc_before_move_in_screen (guys : List boid) (b : boid) (hb : b ∈ frame guys) :
    0 ≤ b.loc.X - b.vel.X ∧ b.loc.X - b.vel.X ≤ screenmaxX ∧
      0 ≤ b.loc.Y - b.vel.Y ∧ b.loc.Y - b.vel.Y ≤ screenmaxY := by
  refine frame_forall (fun b => 0 ≤ b.loc.X - b.vel.X ∧ b.loc.X - b.vel.X ≤ screenmaxX ∧
      0 ≤ b.loc.Y - b.vel.Y ∧ b.loc.Y - b.vel.Y ≤ screenmaxY) ?_ guys b hb
  intro g ns
  have hbox := ruleStayOnScreen_box (ruleMatchVelocity (ruleDontCrowd (ruleGetClose g ns) ns) ns)
  rw [pipeline_loc]
  simpa [Vec.Add] using hbox

theorem frame_loc_before_move_in_screen_witness :
    move (ruleSpeedCap (ruleStayOnScreen ⟨⟨5, 0⟩, ⟨799, 400⟩, 0⟩)) ∈
        frame [⟨⟨5, 0⟩, ⟨799, 400⟩, 0⟩] ∧
      (0 ≤ (move (ruleSpeedCap (ruleStayOnScreen ⟨⟨5, 0⟩, ⟨799, 400⟩, 0⟩))).loc.X
            - (move (ruleSpeedCap (ruleStayOnScreen ⟨⟨5, 0⟩, ⟨799, 400⟩, 0⟩))).vel.X ∧
        (move (ruleSpeedCap (ruleStayOnScreen ⟨⟨5, 0⟩, ⟨799, 400⟩, 0⟩))).loc.X
            - (move (ruleSpeedCap (ruleStayOnScreen ⟨⟨5, 0⟩, ⟨799, 400⟩, 0⟩))).vel.X ≤ screenmaxX ∧
        0 ≤ (move (ruleSpeedCap (ruleStayOnScreen ⟨⟨5, 0⟩, ⟨799, 400⟩, 0⟩))).loc.Y
            - (move (ruleSpeedCap (ruleStayOnScreen ⟨⟨5, 0⟩, ⟨799, 400⟩, 0⟩))).vel.Y ∧
        (move (ruleSpeedCap (ruleStayOnScreen ⟨⟨5, 0⟩, ⟨799, 400⟩, 0⟩))).loc.Y
            - (move (ruleSpeedCap (ruleStayOnScreen ⟨⟨5, 0⟩, ⟨799, 400⟩, 0⟩))).vel.Y ≤ screenmaxY) :=
  ⟨by rw [frame_single]; exact List.mem_singleton_self _,
    frame_loc_before_move_in_screen [⟨⟨5, 0⟩, ⟨799, 400⟩, 0⟩] _
      (by rw [frame_single]; exact List.mem_singleton_self _)⟩

/-- C2: after one frame every boid's velocity has `Len(vel) ≤ speedCap`. -/
theorem frame_speed_bound (guys : List boid) (b : boid) (hb : b ∈ frame guys) :
    b.vel.Len ≤ speedCap :=
  frame_forall (fun b => b.vel.Len ≤ speedCap) pipeline_vel_Len guys b hb

theorem frame_speed_bound_witness :
    move (ruleSpeedCap (ruleStayOnScreen ⟨⟨9, 9⟩, ⟨10, 20⟩, 0⟩)) ∈
        frame [⟨⟨9, 9⟩, ⟨10, 20⟩, 0⟩] ∧
      (move (ruleSpeedCap (ruleStayOnScreen ⟨⟨9, 9⟩, ⟨10, 20⟩, 0⟩))).vel.Len ≤ speedCap :=
  ⟨by rw [frame_single]; exact List.mem_singleton_self _,
    frame_speed_bound [⟨⟨9, 9⟩, ⟨10, 20⟩, 0⟩] _
      (by rw [frame_single]; exact List.mem_singleton_self _)⟩

/-! ## The neighbour finder -/

/-- C3, as stated, fails: in a swarm of two boids with equal fields, index `1`
is another index at distance `0 < neighbourhood` from the boid at index `0`, and
`neighbours` does not return it. -/
theorem neighbours_misses_twin :
    [(⟨⟨1, 2⟩, ⟨100, 100⟩, 0⟩ : boid), ⟨⟨1, 2⟩, ⟨100, 100⟩, 0⟩][0]?
        = some ⟨⟨1, 2⟩, ⟨100, 100⟩, 0⟩ ∧
      ¬ (∀ j, j ∈ neighbours ⟨⟨1, 2⟩, ⟨100, 100⟩, 0⟩
              [⟨⟨1, 2⟩, ⟨100, 100⟩, 0⟩, ⟨⟨1, 2⟩, ⟨100, 100⟩, 0⟩] ↔
          j ≠ 0 ∧ ∃ x, [(⟨⟨1, 2⟩, ⟨100, 100⟩, 0⟩ : boid), ⟨⟨1, 2⟩, ⟨100, 100⟩, 0⟩][j]? = some x ∧
            ((⟨100, 100⟩ : Vec).Sub x.loc).Len < neighbourhood) := by
  refine ⟨rfl, ?_⟩
  intro h
  have h1 := (h 1).mpr ⟨by decide, ⟨⟨1, 2⟩, ⟨100, 100⟩, 0⟩, rfl, by
    norm_num [Vec.Sub, Vec.Len, neighbourhood]⟩
  simp [neighbours, neighboursFrom] at h1

/-- C3, amended: for the boid `b` at index `i` of `swarm`, `neighbours` returns,
each once and in index order, exactly the indices `j ≠ i` whose boid differs from
`b` in some field (`vel`, `loc` or `angle`) and lies at distance
`Len(b.loc - swarm[j].loc) < neighbourhood`. -/
theorem neighbours_contract (swarm : List boid) (i : Nat) (b : boid) (hb : swarm[i]? = some b) :
    (∀ j, j ∈ neighbours b swarm ↔
        j ≠ i ∧ ∃ x, swarm[j]? = some x ∧ x ≠ b ∧ (b.loc.Sub x.loc).Len < neighbourhood) ∧
      (neighbours b swarm).Sorted (· < ·) := by
  refine ⟨?_, neighboursFrom_sorted b swarm 0⟩
  intro j
  rw [mem_neighbours]
  constructor
  · rintro ⟨x, hx, hd, hne⟩
    refine ⟨?_, x, hx, Ne.symm hne, hd⟩
    rintro rfl
    rw [hb] at hx
    exact hne (Option.some.inj hx)
  · rintro ⟨_, x, hx, hne, hd⟩
    exact ⟨x, hx, hd, Ne.symm hne⟩

theorem neighbours_contract_witness :
    [(⟨⟨1, 2⟩, ⟨100, 100⟩, 0⟩ : boid), ⟨⟨0, 0⟩, ⟨130, 140⟩, 0⟩, ⟨⟨1, 2⟩, ⟨100, 100⟩, 0⟩][0]?
        = some ⟨⟨1, 2⟩, ⟨100, 100⟩, 0⟩ ∧
      ((∀ j, j ∈ neighbours ⟨⟨1, 2⟩, ⟨100, 100⟩, 0⟩
            [⟨⟨1, 2⟩, ⟨100, 100⟩, 0⟩, ⟨⟨0, 0⟩, ⟨130, 140⟩, 0⟩, ⟨⟨1, 2⟩, ⟨100, 100⟩, 0⟩] ↔
          j ≠ 0 ∧ ∃ x, [(⟨⟨1, 2⟩, ⟨100, 100⟩, 0⟩ : boid), ⟨⟨0, 0⟩, ⟨130, 140⟩, 0⟩,
              ⟨⟨1, 2⟩, ⟨100, 100⟩, 0⟩][j]? = some x ∧
            x ≠ ⟨⟨1, 2⟩, ⟨100, 100⟩, 0⟩ ∧
            ((⟨100, 100⟩ : Vec).Sub x.loc).Len < neighbourhood) ∧
        (neighbours ⟨⟨1, 2⟩, ⟨100, 100⟩, 0⟩
            [⟨⟨1, 2⟩, ⟨100, 100⟩, 0⟩, ⟨⟨0, 0⟩, ⟨130, 140⟩, 0⟩, ⟨⟨1, 2⟩, ⟨100, 100⟩, 0⟩]).Sorted
          (· < ·)) :=
  ⟨rfl, neighbours_contract _ 0 _ rfl⟩

/-- C4: for the boid `b` at index `i` of `swarm`, the result of `neighbours`
never contains `i`, whatever the other boids are, equal to `b` or not. -/
theorem neighbours_excludes_self (swarm : List boid) (i : Nat) (b : boid)
    (hb : swarm[i]? = some b) : i ∉ neighbours b swarm :=
  self_not_mem_neighbours swarm i b hb

theorem neighbours_excludes_self_witness :
    [(⟨⟨1, 2⟩, ⟨100, 100⟩, 0⟩ : boid), ⟨⟨1, 2⟩, ⟨100, 100⟩, 0⟩, ⟨⟨3, 0⟩, ⟨110, 100⟩, 0⟩][0]?
        = some ⟨⟨1, 2⟩, ⟨100, 100⟩, 0⟩ ∧
      0 ∉ neighbours ⟨⟨1, 2⟩, ⟨100, 100⟩, 0⟩
        [⟨⟨1, 2⟩, ⟨100, 100⟩, 0⟩, ⟨⟨1, 2⟩, ⟨100, 100⟩, 0⟩, ⟨⟨3, 0⟩, ⟨110, 100⟩, 0⟩] :=
  ⟨rfl, neighbours_excludes_self _ 0 _ rfl⟩

/-! ## The three flocking rules -/

/-- C5: with an empty neighbour list `ruleGetClose`, `ruleDontCrowd` and
`ruleMatchVelocity` return the boid unchanged; so for a boid `b` at index `i`
whose `neighbours` result is empty the loop body replaces it by
`move (ruleSpeedCap (ruleStayOnScreen b))`, and so does the whole frame when the
result is empty on the slice as it is when the loop reaches `i`. -/
theorem isolation_noop (b : boid) :
    ruleGetClose b [] = b ∧ ruleDontCrowd b [] = b ∧ ruleMatchVelocity b [] = b ∧
      (∀ (guys : List boid) (i : Nat), guys[i]? = some b → neighbours b guys = [] →
        updateBoid guys i = guys.set i (move (ruleSpeedCap (ruleStayOnScreen b)))) ∧
      (∀ (guys : List boid) (i : Nat), guys[i]? = some b →
        neighbours b ((List.range i).foldl updateBoid guys) = [] →
        (frame guys)[i]? = some (move (ruleSpeedCap (ruleStayOnScreen b)))) := by
  have h1 : ruleGetClose b [] = b := by simp [ruleGetClose]
  have h2 : ruleDontCrowd b [] = b := by simp [ruleDontCrowd]
  have h3 : ruleMatchVelocity b [] = b := by simp [ruleMatchVelocity]
  have hp : pipeline b [] = move (ruleSpeedCap (ruleStayOnScreen b)) := by
    unfold pipeline
    rw [h1, h2, h3]
  refine ⟨h1, h2, h3, ?_, ?_⟩
  · intro guys i hg hn
    rw [updateBoid_eq guys i b hg, hn]
    simp only [deref, List.filterMap_nil]
    rw [hp]
  · intro guys i hg hn
    rw [frame_getElem? guys i b hg, hn]
    simp only [deref, List.filterMap_nil]
    rw [hp]

theorem isolation_noop_witness :
    [(⟨⟨5, 0⟩, ⟨799, 400⟩, 0⟩ : boid), ⟨⟨1, 1⟩, ⟨100, 100⟩, 0⟩][0]?
        = some ⟨⟨5, 0⟩, ⟨799, 400⟩, 0⟩ ∧
      neighbours ⟨⟨5, 0⟩, ⟨799, 400⟩, 0⟩
        [⟨⟨5, 0⟩, ⟨799, 400⟩, 0⟩, ⟨⟨1, 1⟩, ⟨100, 100⟩, 0⟩] = [] ∧
      updateBoid [⟨⟨5, 0⟩, ⟨799, 400⟩, 0⟩, ⟨⟨1, 1⟩, ⟨100, 100⟩, 0⟩] 0 =
        [move (ruleSpeedCap (ruleStayOnScreen ⟨⟨5, 0⟩, ⟨799, 400⟩, 0⟩)),
          ⟨⟨1, 1⟩, ⟨100, 100⟩, 0⟩] := by
  have hfar : ¬ ((⟨799, 400⟩ : Vec).Sub ⟨100, 100⟩).Len < neighbourhood := by
    rw [Vec.Len_lt_iff _ _ (by norm_num [neighbourhood])]
    norm_num [Vec.Sub, neighbourhood]
  have hn : neighbours ⟨⟨5, 0⟩, ⟨799, 400⟩, 0⟩
      [⟨⟨5, 0⟩, ⟨799, 400⟩, 0⟩, ⟨⟨1, 1⟩, ⟨100, 100⟩, 0⟩] = [] := by
    simp [neighbours, neighboursFrom, hfar]
  exact ⟨rfl, hn, (isolation_noop ⟨⟨5, 0⟩, ⟨799, 400⟩, 0⟩).2.2.2.1 _ 0 rfl hn⟩

/-- C6: for a non-empty neighbour list `ruleGetClose` adds
`(centroid - b.loc) * boidTightness` to the velocity, the centroid being the sum
of the neighbours' positions divided by their number, and leaves `loc` and
`angle` as they are. -/
theorem ruleGetClose_cohesion (b : boid) (neighs : List boid) (h : neighs ≠ []) :
    (ruleGetClose b neighs).vel.X =
        b.vel.X + ((neighs.map (fun x => x.loc.X)).sum / neighs.length - b.loc.X) * boidTightness ∧
      (ruleGetClose b neighs).vel.Y =
        b.vel.Y + ((neighs.map (fun x => x.loc.Y)).sum / neighs.length - b.loc.Y) * boidTightness ∧
      (ruleGetClose b neighs).loc = b.loc ∧ (ruleGetClose b neighs).angle = b.angle := by
  have hlen : ¬ neighs.length ≤ 0 := by
    rw [Nat.le_zero, List.length_eq_zero]
    exact h
  unfold ruleGetClose
  rw [if_neg hlen, foldl_Add_loc]
  simp only [ZV, Vec.Add, Vec.Sub, Vec.Scaled, zero_add, mul_one_div, and_self]

theorem ruleGetClose_cohesion_witness :
    [(⟨⟨0, 0⟩, ⟨10, 0⟩, 0⟩ : boid), ⟨⟨0, 0⟩, ⟨30, 40⟩, 0⟩] ≠ [] ∧
      (ruleGetClose ⟨⟨1, 2⟩, ⟨0, 0⟩, 0⟩ [⟨⟨0, 0⟩, ⟨10, 0⟩, 0⟩, ⟨⟨0, 0⟩, ⟨30, 40⟩, 0⟩]).vel.X
        = 1 + ((10 + 30) / 2 - 0) * boidTightness := by
  refine ⟨List.cons_ne_nil _ _, ?_⟩
  have h := (ruleGetClose_cohesion ⟨⟨1, 2⟩, ⟨0, 0⟩, 0⟩
    [⟨⟨0, 0⟩, ⟨10, 0⟩, 0⟩, ⟨⟨0, 0⟩, ⟨30, 40⟩, 0⟩] (List.cons_ne_nil _ _)).1
  rw [h]
  norm_num

/-- C7: for a non-empty neighbour list `ruleDontCrowd` adds
`personalSpacePower * S` to the velocity, `S` being the sum of `b.loc - x.loc`
over exactly the neighbours `x` with `Len(b.loc - x.loc) < personalSpaceSize`,
and leaves `loc` and `angle` as they are. -/
theorem ruleDontCrowd_separation (b : boid) (neighs : List boid) (h : neighs ≠ []) :
    (ruleDontCrowd b neighs).vel.X =
        b.vel.X + personalSpacePower *
          ((neighs.filter (fun x => decide ((b.loc.Sub x.loc).Len < personalSpaceSize))).map
            (fun x => b.loc.X - x.loc.X)).sum ∧
      (ruleDontCrowd b neighs).vel.Y =
        b.vel.Y + personalSpacePower *
          ((neighs.filter (fun x => decide ((b.loc.Sub x.loc).Len < personalSpaceSize))).map
            (fun x => b.loc.Y - x.loc.Y)).sum ∧
      (ruleDontCrowd b neighs).loc = b.loc ∧ (ruleDontCrowd b neighs).angle = b.angle := by
  have hlen : ¬ neighs.length ≤ 0 := by
    rw [Nat.le_zero, List.length_eq_zero]
    exact h
  unfold ruleDontCrowd
  rw [if_neg hlen, foldl_crowd]
  simp only [ZV, Vec.Add, Vec.Scaled, zero_add, and_self, and_true]
  exact ⟨by rw [mul_comm], by rw [mul_comm]⟩

theorem ruleDontCrowd_separation_witness :
    [(⟨⟨0, 0⟩, ⟨3, 4⟩, 0⟩ : boid), ⟨⟨0, 0⟩, ⟨30, 40⟩, 0⟩] ≠ [] ∧
      (ruleDontCrowd ⟨⟨1, 2⟩, ⟨0, 0⟩, 0⟩ [⟨⟨0, 0⟩, ⟨3, 4⟩, 0⟩, ⟨⟨0, 0⟩, ⟨30, 40⟩, 0⟩]).vel.X
        = 1 + personalSpacePower * (0 - 3) := by
  refine ⟨List.cons_ne_nil _ _, ?_⟩
  have hnear : ((⟨0, 0⟩ : Vec).Sub ⟨3, 4⟩).Len < personalSpaceSize := by
    rw [Vec.Len_lt_iff _ _ (by norm_num [personalSpaceSize])]
    norm_num [Vec.Sub, personalSpaceSize]
  have hfar : ¬ ((⟨0, 0⟩ : Vec).Sub ⟨30, 40⟩).Len < personalSpaceSize := by
    rw [Vec.Len_lt_iff _ _ (by norm_num [personalSpaceSize])]
    norm_num [Vec.Sub, personalSpaceSize]
  have h := (ruleDontCrowd_separation ⟨⟨1, 2⟩, ⟨0, 0⟩, 0⟩
    [⟨⟨0, 0⟩, ⟨3, 4⟩, 0⟩, ⟨⟨0, 0⟩, ⟨30, 40⟩, 0⟩] (List.cons_ne_nil _ _)).1
  rw [h]
  simp [List.filter, hnear, hfar]

/-- C8: for a non-empty neighbour list `ruleMatchVelocity` adds
`(meanVel - b.vel) * copycatPower` to the velocity, `meanVel` being the sum of
the neighbours' velocities divided by their number, and leaves `loc` and `angle`
as they are. -/
theorem ruleMatchVelocity_alignment (b : boid) (neighs : List boid) (h : neighs ≠ []) :
    (ruleMatchVelocity b neighs).vel.X =
        b.vel.X + ((neighs.map (fun x => x.vel.X)).sum / neighs.length - b.vel.X) * copycatPower ∧
      (ruleMatchVelocity b neighs).vel.Y =
        b.vel.Y + ((neighs.map (fun x => x.vel.Y)).sum / neighs.length - b.vel.Y) * copycatPower ∧
      (ruleMatchVelocity b neighs).loc = b.loc ∧ (ruleMatchVelocity b neighs).angle = b.angle := by
  have hlen : ¬ neighs.length ≤ 0 := by
    rw [Nat.le_zero, List.length_eq_zero]
    exact h
  unfold ruleMatchVelocity
  rw [if_neg hlen, foldl_Add_vel]
  simp only [ZV, Vec.Add, Vec.Sub, Vec.Scaled, zero_add, mul_one_div, and_self]

theorem ruleMatchVelocity_alignment_witness :
    [(⟨⟨4, 0⟩, ⟨10, 0⟩, 0⟩ : boid), ⟨⟨2, 6⟩, ⟨30, 40⟩, 0⟩] ≠ [] ∧
      (ruleMatchVelocity ⟨⟨1, 2⟩, ⟨0, 0⟩, 0⟩ [⟨⟨4, 0⟩, ⟨10, 0⟩, 0⟩, ⟨⟨2, 6⟩, ⟨30, 40⟩, 0⟩]).vel.Y
        = 2 + ((0 + 6) / 2 - 2) * copycatPower := by
  refine ⟨List.cons_ne_nil _ _, ?_⟩
  have h := (ruleMatchVelocity_alignment ⟨⟨1, 2⟩, ⟨0, 0⟩, 0⟩
    [⟨⟨4, 0⟩, ⟨10, 0⟩, 0⟩, ⟨⟨2, 6⟩, ⟨30, 40⟩, 0⟩] (List.cons_ne_nil _ _)).2.1
  rw [h]
  norm_num

/-! ## Boundary and speed rules -/

/-- C9: `ruleStayOnScreen` treats each axis on its own: a coordinate below `0`
becomes `0` and one above the screen maximum becomes that maximum, in both cases
with the velocity component negated; a coordinate inside the range is kept with
its velocity component; `angle` is kept.  So a boid with `loc.X = -5`,
`vel.X = 3` and `loc.Y` in `[0, screenmaxY]` ends with `loc.X = 0`, `vel.X = -3`
and the rest unchanged. -/
theorem ruleStayOnScreen_reflects :
    (∀ b : boid,
      (b.loc.X < 0 → (ruleStayOnScreen b).loc.X = 0 ∧ (ruleStayOnScreen b).vel.X = -b.vel.X) ∧
      (b.loc.X > screenmaxX →
        (ruleStayOnScreen b).loc.X = screenmaxX ∧ (ruleStayOnScreen b).vel.X = -b.vel.X) ∧
      (0 ≤ b.loc.X ∧ b.loc.X ≤ screenmaxX →
        (ruleStayOnScreen b).loc.X = b.loc.X ∧ (ruleStayOnScreen b).vel.X = b.vel.X) ∧
      (b.loc.Y < 0 → (ruleStayOnScreen b).loc.Y = 0 ∧ (ruleStayOnScreen b).vel.Y = -b.vel.Y) ∧
      (b.loc.Y > screenmaxY →
        (ruleStayOnScreen b).loc.Y = screenmaxY ∧ (ruleStayOnScreen b).vel.Y = -b.vel.Y) ∧
      (0 ≤ b.loc.Y ∧ b.loc.Y ≤ screenmaxY →
        (ruleStayOnScreen b).loc.Y = b.loc.Y ∧ (ruleStayOnScreen b).vel.Y = b.vel.Y) ∧
      (ruleStayOnScreen b).angle = b.angle) ∧
    (∀ vy ly a : ℝ, 0 ≤ ly → ly ≤ screenmaxY →
      ruleStayOnScreen ⟨⟨3, vy⟩, ⟨-5, ly⟩, a⟩ = ⟨⟨-3, vy⟩, ⟨0, ly⟩, a⟩) := by
  have hx : (0 : ℝ) < screenmaxX := by unfold screenmaxX; norm_num
  have hy : (0 : ℝ) < screenmaxY := by unfold screenmaxY; norm_num
  have main : ∀ b : boid,
      (b.loc.X < 0 → (ruleStayOnScreen b).loc.X = 0 ∧ (ruleStayOnScreen b).vel.X = -b.vel.X) ∧
      (b.loc.X > screenmaxX →
        (ruleStayOnScreen b).loc.X = screenmaxX ∧ (ruleStayOnScreen b).vel.X = -b.vel.X) ∧
      (0 ≤ b.loc.X ∧ b.loc.X ≤ screenmaxX →
        (ruleStayOnScreen b).loc.X = b.loc.X ∧ (ruleStayOnScreen b).vel.X = b.vel.X) ∧
      (b.loc.Y < 0 → (ruleStayOnScreen b).loc.Y = 0 ∧ (ruleStayOnScreen b).vel.Y = -b.vel.Y) ∧
      (b.loc.Y > screenmaxY →
        (ruleStayOnScreen b).loc.Y = screenmaxY ∧ (ruleStayOnScreen b).vel.Y = -b.vel.Y) ∧
      (0 ≤ b.loc.Y ∧ b.loc.Y ≤ screenmaxY →
        (ruleStayOnScreen b).loc.Y = b.loc.Y ∧ (ruleStayOnScreen b).vel.Y = b.vel.Y) ∧
      (ruleStayOnScreen b).angle = b.angle := by
    intro b
    rw [(ruleStayOnScreen_X b).1, (ruleStayOnScreen_X b).2, (ruleStayOnScreen_Y b).1,
      (ruleStayOnScreen_Y b).2]
    refine ⟨?_, ?_, ?_, ?_, ?_, ?_, ruleStayOnScreen_angle b⟩
    · intro h
      simp [h]
    · intro h
      have h0 : ¬ b.loc.X < 0 := not_lt.mpr (le_of_lt (lt_trans hx h))
      simp [h0, h]
    · rintro ⟨h0, h1⟩
      simp [not_lt.mpr h0, not_lt.mpr h1]
    · intro h
      simp [h]
    · intro h
      have h0 : ¬ b.loc.Y < 0 := not_lt.mpr (le_of_lt (lt_trans hy h))
      simp [h0, h]
    · rintro ⟨h0, h1⟩
      simp [not_lt.mpr h0, not_lt.mpr h1]
  refine ⟨main, ?_⟩
  intro vy ly a h0 h1
  obtain ⟨hX, _, _, _, _, hY, hA⟩ := main ⟨⟨3, vy⟩, ⟨-5, ly⟩, a⟩
  have hX2 := hX (by norm_num)
  have hY2 := hY ⟨h0, h1⟩
  cases hr : ruleStayOnScreen ⟨⟨3, vy⟩, ⟨-5, ly⟩, a⟩ with
  | mk vel loc angle =>
    rw [hr] at hX2 hY2 hA
    cases vel
    cases loc
    simp_all

theorem ruleStayOnScreen_reflects_witness :
    ((0 : ℝ) ≤ 20 ∧ (20 : ℝ) ≤ screenmaxY) ∧
      ruleStayOnScreen ⟨⟨3, 1⟩, ⟨-5, 20⟩, 7⟩ = ⟨⟨-3, 1⟩, ⟨0, 20⟩, 7⟩ :=
  ⟨⟨by norm_num, by norm_num [screenmaxY]⟩,
    ruleStayOnScreen_reflects.2 1 20 7 (by norm_num) (by norm_num [screenmaxY])⟩

/-- C10: when `Len(b.vel) > speedCap`, `ruleSpeedCap` leaves a velocity of
magnitude exactly `speedCap` that is the old velocity scaled by a positive
factor; when `Len(b.vel) ≤ speedCap` the velocity is unchanged; `loc` and `angle`
are unchanged in both cases. -/
theorem ruleSpeedCap_rescales (b : boid) :
    (b.vel.Len > speedCap →
        (ruleSpeedCap b).vel.Len = speedCap ∧
          ∃ c : ℝ, 0 < c ∧ (ruleSpeedCap b).vel = b.vel.Scaled c) ∧
      (b.vel.Len ≤ speedCap → (ruleSpeedCap b).vel = b.vel) ∧
      (ruleSpeedCap b).loc = b.loc ∧ (ruleSpeedCap b).angle = b.angle := by
  refine ⟨?_, ?_, ruleSpeedCap_loc b, ruleSpeedCap_angle b⟩
  · intro h
    rw [ruleSpeedCap_of_gt b h]
    exact ⟨Len_Scaled_cap b.vel h, speedCap / b.vel.Len,
      div_pos speedCap_pos (lt_trans speedCap_pos h), rfl⟩
  · intro h
    rw [ruleSpeedCap_of_le b h]

theorem ruleSpeedCap_rescales_witness :
    (⟨6, 8⟩ : Vec).Len > speedCap ∧
      (ruleSpeedCap ⟨⟨6, 8⟩, ⟨1, 1⟩, 0⟩).vel.Len = speedCap := by
  have hgt : (⟨6, 8⟩ : Vec).Len > speedCap := by
    apply lt_of_not_ge
    intro hle
    rw [ge_iff_le, Vec.Len_le_iff _ _ (le_of_lt speedCap_pos)] at hle
    norm_num [speedCap] at hle
  exact ⟨hgt, ((ruleSpeedCap_rescales ⟨⟨6, 8⟩, ⟨1, 1⟩, 0⟩).1 hgt).1⟩

/-! ## Further vector and rule lemmas -/

theorem Vec.Len_Scaled_abs (u : Vec) (c : ℝ) : (u.Scaled c).Len = |c| * u.Len := by
  unfold Vec.Len Vec.Scaled
  have h : u.X * c * (u.X * c) + u.Y * c * (u.Y * c) = c ^ 2 * (u.X * u.X + u.Y * u.Y) := by ring
  rw [h, Real.sqrt_mul (sq_nonneg c), Real.sqrt_sq_eq_abs]

theorem Vec.Len_eq_zero_iff (u : Vec) : u.Len = 0 ↔ u = ZV := by
  unfold Vec.Len
  rw [Real.sqrt_eq_zero u.sumsq_nonneg, Vec.ext_iff2]
  constructor
  · intro h
    have hx : u.X * u.X = 0 := by nlinarith [mul_self_nonneg u.X, mul_self_nonneg u.Y]
    have hy : u.Y * u.Y = 0 := by nlinarith [mul_self_nonneg u.X, mul_self_nonneg u.Y]
    exact ⟨mul_self_eq_zero.mp hx, mul_self_eq_zero.mp hy⟩
  · rintro ⟨hx, hy⟩
    simp [hx, hy, ZV]

theorem Vec.Len_ZV : ZV.Len = 0 := (Vec.Len_eq_zero_iff ZV).mpr rfl

theorem ruleStayOnScreen_of_inside (b : boid)
    (hx0 : 0 ≤ b.loc.X) (hx1 : b.loc.X ≤ screenmaxX)
    (hy0 : 0 ≤ b.loc.Y) (hy1 : b.loc.Y ≤ screenmaxY) : ruleStayOnScreen b = b := by
  unfold ruleStayOnScreen
  simp only [if_neg (not_lt.mpr hx0), if_neg (not_lt.mpr hx1), if_neg (not_lt.mpr hy0),
    if_neg (not_lt.mpr hy1), gt_iff_lt]

theorem ruleStayOnScreen_vel_sumsq (b : boid) :
    (ruleStayOnScreen b).vel.X * (ruleStayOnScreen b).vel.X
        + (ruleStayOnScreen b).vel.Y * (ruleStayOnScreen b).vel.Y
      = b.vel.X * b.vel.X + b.vel.Y * b.vel.Y := by
  rw [(ruleStayOnScreen_X b).2, (ruleStayOnScreen_Y b).2]
  split_ifs <;> ring

theorem ruleDontCrowd_vel (b : boid) (neighs : List boid) :
    (ruleDontCrowd b neighs).vel =
      ⟨b.vel.X + personalSpacePower *
          ((neighs.filter (fun x => decide ((b.loc.Sub x.loc).Len < personalSpaceSize))).map
            (fun x => b.loc.X - x.loc.X)).sum,
        b.vel.Y + personalSpacePower *
          ((neighs.filter (fun x => decide ((b.loc.Sub x.loc).Len < personalSpaceSize))).map
            (fun x => b.loc.Y - x.loc.Y)).sum⟩ := by
  unfold ruleDontCrowd
  by_cases hlen : neighs.length ≤ 0
  · have hnil : neighs = [] := List.length_eq_zero.mp (Nat.le_zero.mp hlen)
    subst hnil
    simp
  · rw [if_neg hlen, foldl_crowd]
    simp only [ZV, Vec.Add, Vec.Scaled, zero_add, Vec.mk.injEq]
    exact ⟨by rw [mul_comm], by rw [mul_comm]⟩

theorem move_eq (b : boid) : move b = ⟨b.vel, b.loc.Add b.vel, b.vel.Angle⟩ := rfl

theorem pipeline_angle (g : boid) (ns : List boid) :
    (pipeline g ns).angle = (pipeline g ns).vel.Angle := by
  unfold pipeline
  rw [move_eq]

/-! ## Separation threshold and heading -/

/-- C11: a boid `x` at distance `Len(b.loc - x.loc) ≥ personalSpaceSize` from
`b`, added anywhere to the neighbour list, does not change the velocity
`ruleDontCrowd` leaves; and when every neighbour is that far the velocity is the
old one. -/
theorem ruleDontCrowd_threshold (b : boid) :
    (∀ (x : boid) (l1 l2 : List boid), (b.loc.Sub x.loc).Len ≥ personalSpaceSize →
        (ruleDontCrowd b (l1 ++ x :: l2)).vel = (ruleDontCrowd b (l1 ++ l2)).vel) ∧
      (∀ neighs : List boid, (∀ y ∈ neighs, (b.loc.Sub y.loc).Len ≥ personalSpaceSize) →
        (ruleDontCrowd b neighs).vel = b.vel) := by
  constructor
  · intro x l1 l2 hx
    have hneg : ¬ (decide ((b.loc.Sub x.loc).Len < personalSpaceSize) = true) := by
      simpa using hx
    have hf : (x :: l2).filter (fun y => decide ((b.loc.Sub y.loc).Len < personalSpaceSize))
        = l2.filter (fun y => decide ((b.loc.Sub y.loc).Len < personalSpaceSize)) :=
      List.filter_cons_of_neg hneg
    rw [ruleDontCrowd_vel, ruleDontCrowd_vel, List.filter_append, List.filter_append, hf]
  · intro neighs hall
    have hnil : neighs.filter (fun x => decide ((b.loc.Sub x.loc).Len < personalSpaceSize))
        = [] := by
      rw [List.filter_eq_nil_iff]
      intro y hy
      simpa using hall y hy
    rw [ruleDontCrowd_vel, hnil]
    simp

theorem ruleDontCrowd_threshold_witness :
    ((⟨0, 0⟩ : Vec).Sub ⟨16, 0⟩).Len ≥ personalSpaceSize ∧
      (ruleDontCrowd ⟨⟨1, 2⟩, ⟨0, 0⟩, 0⟩
          ([⟨⟨0, 0⟩, ⟨3, 4⟩, 0⟩] ++ ⟨⟨5, 5⟩, ⟨16, 0⟩, 0⟩ :: [])).vel =
        (ruleDontCrowd ⟨⟨1, 2⟩, ⟨0, 0⟩, 0⟩ ([⟨⟨0, 0⟩, ⟨3, 4⟩, 0⟩] ++ [])).vel := by
  have hfar : ((⟨0, 0⟩ : Vec).Sub ⟨16, 0⟩).Len ≥ personalSpaceSize := by
    apply le_of_not_lt
    rw [Vec.Len_lt_iff _ _ (by norm_num [personalSpaceSize])]
    norm_num [Vec.Sub, personalSpaceSize]
  exact ⟨hfar, (ruleDontCrowd_threshold ⟨⟨1, 2⟩, ⟨0, 0⟩, 0⟩).1 ⟨⟨5, 5⟩, ⟨16, 0⟩, 0⟩
    [⟨⟨0, 0⟩, ⟨3, 4⟩, 0⟩] [] hfar⟩

/-- C12: `move` sets `loc` to the old `loc` plus `vel`, keeps `vel` and sets
`angle` to `Angle(vel)`; so after one frame every boid's `angle` is `Angle` of
its own velocity, whatever the angles were before. -/
theorem heading_is_angle_of_velocity :
    (∀ b : boid, (move b).loc = b.loc.Add b.vel ∧ (move b).vel = b.vel ∧
        (move b).angle = b.vel.Angle) ∧
      (∀ (guys : List boid) (b : boid), b ∈ frame guys → b.angle = b.vel.Angle) :=
  ⟨fun _ => ⟨rfl, rfl, rfl⟩,
    fun guys b hb => frame_forall (fun b => b.angle = b.vel.Angle) pipeline_angle guys b hb⟩

theorem heading_is_angle_of_velocity_witness :
    move (ruleSpeedCap (ruleStayOnScreen ⟨⟨3, 4⟩, ⟨10, 20⟩, 2⟩)) ∈
        frame [⟨⟨3, 4⟩, ⟨10, 20⟩, 2⟩] ∧
      (move (ruleSpeedCap (ruleStayOnScreen ⟨⟨3, 4⟩, ⟨10, 20⟩, 2⟩))).angle =
        (move (ruleSpeedCap (ruleStayOnScreen ⟨⟨3, 4⟩, ⟨10, 20⟩, 2⟩))).vel.Angle :=
  ⟨by rw [frame_single]; exact List.mem_singleton_self _,
    heading_is_angle_of_velocity.2 [⟨⟨3, 4⟩, ⟨10, 20⟩, 2⟩] _
      (by rw [frame_single]; exact List.mem_singleton_self _)⟩

/-! ## Twins, position bound, boundary postcondition -/

/-- C17: two different indices `i ≠ j` holding boids equal in `vel`, `loc` and
`angle` do not list each other: neither `j` nor `i` is in the result of
`neighbours` for that boid, although their distance is `0 < neighbourhood`. -/
theorem twins_exclude_each_other (swarm : List boid) (i j : Nat) (b : boid) (_hij : i ≠ j)
    (hi : swarm[i]? = some b) (hj : swarm[j]? = some b) :
    j ∉ neighbours b swarm ∧ i ∉ neighbours b swarm ∧
      (b.loc.Sub b.loc).Len = 0 ∧ (0 : ℝ) < neighbourhood := by
  refine ⟨self_not_mem_neighbours swarm j b hj, self_not_mem_neighbours swarm i b hi, ?_, ?_⟩
  · rw [Vec.Len_eq_zero_iff]
    simp [Vec.Sub, ZV]
  · norm_num [neighbourhood]

theorem twins_exclude_each_other_witness :
    (0 : Nat) ≠ 1 ∧
      [(⟨⟨1, 2⟩, ⟨100, 100⟩, 0⟩ : boid), ⟨⟨1, 2⟩, ⟨100, 100⟩, 0⟩][0]?
        = some ⟨⟨1, 2⟩, ⟨100, 100⟩, 0⟩ ∧
      [(⟨⟨1, 2⟩, ⟨100, 100⟩, 0⟩ : boid), ⟨⟨1, 2⟩, ⟨100, 100⟩, 0⟩][1]?
        = some ⟨⟨1, 2⟩, ⟨100, 100⟩, 0⟩ ∧
      1 ∉ neighbours ⟨⟨1, 2⟩, ⟨100, 100⟩, 0⟩
        [⟨⟨1, 2⟩, ⟨100, 100⟩, 0⟩, ⟨⟨1, 2⟩, ⟨100, 100⟩, 0⟩] :=
  ⟨by decide, rfl, rfl,
    (twins_exclude_each_other _ 0 1 ⟨⟨1, 2⟩, ⟨100, 100⟩, 0⟩ (by decide) rfl rfl).1⟩

theorem pipeline_loc_bound (g : boid) (ns : List boid) :
    -speedCap ≤ (pipeline g ns).loc.X ∧ (pipeline g ns).loc.X ≤ screenmaxX + speedCap ∧
      -speedCap ≤ (pipeline g ns).loc.Y ∧ (pipeline g ns).loc.Y ≤ screenmaxY + speedCap := by
  have hbox := ruleStayOnScreen_box (ruleMatchVelocity (ruleDontCrowd (ruleGetClose g ns) ns) ns)
  have hv := pipeline_vel_Len g ns
  have hvx := abs_le.mp (le_trans (Vec.abs_X_le_Len (pipeline g ns).vel) hv)
  have hvy := abs_le.mp (le_trans (Vec.abs_Y_le_Len (pipeline g ns).vel) hv)
  rw [pipeline_loc]
  simp only [Vec.Add]
  refine ⟨?_, ?_, ?_, ?_⟩ <;> linarith [hbox.1, hbox.2.1, hbox.2.2.1, hbox.2.2.2, hvx.1,
    hvx.2, hvy.1, hvy.2]

/-- C19: after one frame every boid's position is within `speedCap` of the
screen: `-speedCap ≤ loc.X ≤ screenmaxX + speedCap` and
`-speedCap ≤ loc.Y ≤ screenmaxY + speedCap`. -/
theorem frame_loc_within_speedCap (guys : List boid) (b : boid) (hb : b ∈ frame guys) :
    -speedCap ≤ b.loc.X ∧ b.loc.X ≤ screenmaxX + speedCap ∧
      -speedCap ≤ b.loc.Y ∧ b.loc.Y ≤ screenmaxY + speedCap :=
  frame_forall (fun b => -speedCap ≤ b.loc.X ∧ b.loc.X ≤ screenmaxX + speedCap ∧
    -speedCap ≤ b.loc.Y ∧ b.loc.Y ≤ screenmaxY + speedCap) pipeline_loc_bound guys b hb

theorem frame_loc_within_speedCap_witness :
    move (ruleSpeedCap (ruleStayOnScreen ⟨⟨9, 9⟩, ⟨799, -20⟩, 0⟩)) ∈
        frame [⟨⟨9, 9⟩, ⟨799, -20⟩, 0⟩] ∧
      (-speedCap ≤ (move (ruleSpeedCap (ruleStayOnScreen ⟨⟨9, 9⟩, ⟨799, -20⟩, 0⟩))).loc.X ∧
        (move (ruleSpeedCap (ruleStayOnScreen ⟨⟨9, 9⟩, ⟨799, -20⟩, 0⟩))).loc.X
          ≤ screenmaxX + speedCap ∧
        -speedCap ≤ (move (ruleSpeedCap (ruleStayOnScreen ⟨⟨9, 9⟩, ⟨799, -20⟩, 0⟩))).loc.Y ∧
        (move (ruleSpeedCap (ruleStayOnScreen ⟨⟨9, 9⟩, ⟨799, -20⟩, 0⟩))).loc.Y
          ≤ screenmaxY + speedCap) :=
  ⟨by rw [frame_single]; exact List.mem_singleton_self _,
    frame_loc_within_speedCap [⟨⟨9, 9⟩, ⟨799, -20⟩, 0⟩] _
      (by rw [frame_single]; exact List.mem_singleton_self _)⟩

/-- C20: right after `ruleStayOnScreen` the position is inside the screen,
`0 ≤ loc.X ≤ screenmaxX` and `0 ≤ loc.Y ≤ screenmaxY`, the velocity has the same
`Len` as before, and a second `ruleStayOnScreen` changes nothing. -/
theorem ruleStayOnScreen_postcondition (b : boid) :
    (0 ≤ (ruleStayOnScreen b).loc.X ∧ (ruleStayOnScreen b).loc.X ≤ screenmaxX ∧
        0 ≤ (ruleStayOnScreen b).loc.Y ∧ (ruleStayOnScreen b).loc.Y ≤ screenmaxY) ∧
      (ruleStayOnScreen b).vel.Len = b.vel.Len ∧
      ruleStayOnScreen (ruleStayOnScreen b) = ruleStayOnScreen b := by
  have hbox := ruleStayOnScreen_box b
  refine ⟨hbox, ?_, ruleStayOnScreen_of_inside _ hbox.1 hbox.2.1 hbox.2.2.1 hbox.2.2.2⟩
  unfold Vec.Len
  rw [ruleStayOnScreen_vel_sumsq]

/-! ## Order of the neighbours, division, alignment -/

/-- C14: each of `ruleGetClose`, `ruleDontCrowd` and `ruleMatchVelocity` gives
the same boid from a permutation of the neighbour list as from the list. -/
theorem rules_order_insensitive (b : boid) (neighs neighs2 : List boid)
    (hp : neighs2.Perm neighs) :
    ruleGetClose b neighs2 = ruleGetClose b neighs ∧
      ruleDontCrowd b neighs2 = ruleDontCrowd b neighs ∧
      ruleMatchVelocity b neighs2 = ruleMatchVelocity b neighs := by
  refine ⟨?_, ?_, ?_⟩
  · unfold ruleGetClose
    rw [foldl_Add_loc, foldl_Add_loc, hp.length_eq,
      (hp.map (fun x => x.loc.X)).sum_eq, (hp.map (fun x => x.loc.Y)).sum_eq]
  · unfold ruleDontCrowd
    rw [foldl_crowd, foldl_crowd, hp.length_eq,
      ((hp.filter _).map (fun x => b.loc.X - x.loc.X)).sum_eq,
      ((hp.filter _).map (fun x => b.loc.Y - x.loc.Y)).sum_eq]
  · unfold ruleMatchVelocity
    rw [foldl_Add_vel, foldl_Add_vel, hp.length_eq,
      (hp.map (fun x => x.vel.X)).sum_eq, (hp.map (fun x => x.vel.Y)).sum_eq]

theorem rules_order_insensitive_witness :
    [(⟨⟨2, 6⟩, ⟨30, 40⟩, 0⟩ : boid), ⟨⟨4, 0⟩, ⟨3, 4⟩, 1⟩].Perm
        [⟨⟨4, 0⟩, ⟨3, 4⟩, 1⟩, ⟨⟨2, 6⟩, ⟨30, 40⟩, 0⟩] ∧
      ruleDontCrowd ⟨⟨1, 2⟩, ⟨0, 0⟩, 0⟩ [⟨⟨2, 6⟩, ⟨30, 40⟩, 0⟩, ⟨⟨4, 0⟩, ⟨3, 4⟩, 1⟩] =
        ruleDontCrowd ⟨⟨1, 2⟩, ⟨0, 0⟩, 0⟩ [⟨⟨4, 0⟩, ⟨3, 4⟩, 1⟩, ⟨⟨2, 6⟩, ⟨30, 40⟩, 0⟩] :=
  ⟨List.Perm.swap _ _ _,
    (rules_order_insensitive ⟨⟨1, 2⟩, ⟨0, 0⟩, 0⟩ _ _ (List.Perm.swap _ _ _)).2.1⟩

theorem divide_of_ne_zero (a b : ℝ) (hb : b ≠ 0) : divide a b = some (a / b) := by
  unfold divide
  rw [if_neg hb]

/-- C15: no division of the rules has a zero divisor: with every division
checked, `ruleGetClose`, `ruleMatchVelocity` and `ruleSpeedCap` always return a
result, the one of the unchecked rule; the divisor `len(neighs)` is only reached
with `len(neighs) > 0` and `Len(vel)` only with `Len(vel) > speedCap > 0`; a boid
with zero velocity is left unchanged by `ruleSpeedCap`. -/
theorem rules_never_divide_by_zero :
    (∀ (b : boid) (neighs : List boid),
        ruleGetCloseChecked b neighs = some (ruleGetClose b neighs)) ∧
      (∀ (b : boid) (neighs : List boid),
        ruleMatchVelocityChecked b neighs = some (ruleMatchVelocity b neighs)) ∧
      (∀ b : boid, ruleSpeedCapChecked b = some (ruleSpeedCap b)) ∧
      (∀ neighs : List boid, ¬ neighs.length ≤ 0 → ((neighs.length : ℝ)) ≠ 0) ∧
      (∀ b : boid, b.vel.Len > speedCap → b.vel.Len ≠ 0) ∧
      (∀ (loc : Vec) (angle : ℝ), ruleSpeedCap ⟨ZV, loc, angle⟩ = ⟨ZV, loc, angle⟩) := by
  have hlen : ∀ neighs : List boid, ¬ neighs.length ≤ 0 → ((neighs.length : ℝ)) ≠ 0 := by
    intro neighs h
    have : neighs.length ≠ 0 := fun e => h (le_of_eq e)
    exact_mod_cast this
  have hspeed : ∀ b : boid, b.vel.Len > speedCap → b.vel.Len ≠ 0 :=
    fun b h => ne_of_gt (lt_trans speedCap_pos h)
  refine ⟨?_, ?_, ?_, hlen, hspeed, ?_⟩
  · intro b neighs
    unfold ruleGetCloseChecked ruleGetClose
    by_cases h : neighs.length ≤ 0
    · rw [if_pos h, if_pos h]
    · rw [if_neg h, if_neg h]
      simp only [divide_of_ne_zero _ _ (hlen neighs h)]
  · intro b neighs
    unfold ruleMatchVelocityChecked ruleMatchVelocity
    by_cases h : neighs.length ≤ 0
    · rw [if_pos h, if_pos h]
    · rw [if_neg h, if_neg h]
      simp only [divide_of_ne_zero _ _ (hlen neighs h)]
  · intro b
    unfold ruleSpeedCapChecked ruleSpeedCap
    simp only
    by_cases h : b.vel.Len > speedCap
    · rw [if_pos h, if_pos h]
      simp only [divide_of_ne_zero _ _ (hspeed b h)]
    · rw [if_neg h, if_neg h]
  · intro loc angle
    apply ruleSpeedCap_of_le
    show ZV.Len ≤ speedCap
    rw [Vec.Len_ZV]
    exact le_of_lt speedCap_pos

theorem rules_never_divide_by_zero_witness :
    (⟨6, 8⟩ : Vec).Len > speedCap ∧ (⟨6, 8⟩ : Vec).Len ≠ 0 := by
  have hgt : (⟨6, 8⟩ : Vec).Len > speedCap := by
    apply lt_of_not_ge
    intro hle
    rw [ge_iff_le, Vec.Len_le_iff _ _ (le_of_lt speedCap_pos)] at hle
    norm_num [speedCap] at hle
  exact ⟨hgt, rules_never_divide_by_zero.2.2.2.2.1 ⟨⟨6, 8⟩, ⟨1, 1⟩, 0⟩ hgt⟩

theorem ruleMatchVelocity_vel (b : boid) (neighs : List boid) (h : neighs ≠ []) :
    (ruleMatchVelocity b neighs).vel =
      ⟨b.vel.X + ((neighs.map (fun x => x.vel.X)).sum / neighs.length - b.vel.X) * copycatPower,
        b.vel.Y + ((neighs.map (fun x => x.vel.Y)).sum / neighs.length - b.vel.Y) * copycatPower⟩ := by
  have hlen : ¬ neighs.length ≤ 0 := by
    rw [Nat.le_zero, List.length_eq_zero]
    exact h
  unfold ruleMatchVelocity
  rw [if_neg hlen, foldl_Add_vel]
  simp only [ZV, Vec.Add, Vec.Sub, Vec.Scaled, zero_add, mul_one_div]

theorem copycatPower_eq : copycatPower = 0.0168 := by
  unfold copycatPower f
  norm_num

/-- C18: with `m` the mean of the velocities of a non-empty neighbour list,
`ruleMatchVelocity` leaves `new vel - m = (old vel - m) * (1 - copycatPower)`, so
`Len(new vel - m) = (1 - copycatPower) * Len(old vel - m)`, strictly less than
`Len(old vel - m)` when the old velocity is not `m`; `copycatPower = 0.0168`. -/
theorem ruleMatchVelocity_contracts (b : boid) (neighs : List boid) (m : Vec)
    (h : neighs ≠ [])
    (hmX : m.X = (neighs.map (fun x => x.vel.X)).sum / neighs.length)
    (hmY : m.Y = (neighs.map (fun x => x.vel.Y)).sum / neighs.length) :
    (ruleMatchVelocity b neighs).vel.Sub m = (b.vel.Sub m).Scaled (1 - copycatPower) ∧
      ((ruleMatchVelocity b neighs).vel.Sub m).Len = (1 - copycatPower) * (b.vel.Sub m).Len ∧
      (b.vel ≠ m → ((ruleMatchVelocity b neighs).vel.Sub m).Len < (b.vel.Sub m).Len) ∧
      copycatPower = 0.0168 := by
  have hc0 : (0 : ℝ) ≤ 1 - copycatPower := by rw [copycatPower_eq]; norm_num
  have hc1 : (1 : ℝ) - copycatPower < 1 := by rw [copycatPower_eq]; norm_num
  have heq : (ruleMatchVelocity b neighs).vel.Sub m = (b.vel.Sub m).Scaled (1 - copycatPower) := by
    rw [ruleMatchVelocity_vel b neighs h, ← hmX, ← hmY]
    simp only [Vec.Sub, Vec.Scaled, Vec.mk.injEq]
    constructor <;> ring
  refine ⟨heq, ?_, ?_, copycatPower_eq⟩
  · rw [heq, Vec.Len_Scaled _ _ hc0]
  · intro hne
    rw [heq, Vec.Len_Scaled _ _ hc0]
    have hpos : 0 < (b.vel.Sub m).Len := by
      apply lt_of_le_of_ne (Vec.Len_nonneg _)
      intro h0
      have hz := (Vec.Len_eq_zero_iff _).mp h0.symm
      apply hne
      rw [Vec.ext_iff2] at hz ⊢
      simp only [Vec.Sub, ZV] at hz
      exact ⟨by linarith [hz.1], by linarith [hz.2]⟩
    nlinarith

theorem ruleMatchVelocity_contracts_witness :
    ([(⟨⟨4, 0⟩, ⟨10, 0⟩, 0⟩ : boid), ⟨⟨2, 6⟩, ⟨30, 40⟩, 0⟩] ≠ [] ∧
        (⟨3, 3⟩ : Vec).X = ([(⟨⟨4, 0⟩, ⟨10, 0⟩, 0⟩ : boid), ⟨⟨2, 6⟩, ⟨30, 40⟩, 0⟩].map
          (fun x => x.vel.X)).sum /
            ([(⟨⟨4, 0⟩, ⟨10, 0⟩, 0⟩ : boid), ⟨⟨2, 6⟩, ⟨30, 40⟩, 0⟩].length : ℝ) ∧
        (⟨3, 3⟩ : Vec).Y = ([(⟨⟨4, 0⟩, ⟨10, 0⟩, 0⟩ : boid), ⟨⟨2, 6⟩, ⟨30, 40⟩, 0⟩].map
          (fun x => x.vel.Y)).sum /
            ([(⟨⟨4, 0⟩, ⟨10, 0⟩, 0⟩ : boid), ⟨⟨2, 6⟩, ⟨30, 40⟩, 0⟩].length : ℝ)) ∧
      (ruleMatchVelocity ⟨⟨1, 2⟩, ⟨0, 0⟩, 0⟩
          [⟨⟨4, 0⟩, ⟨10, 0⟩, 0⟩, ⟨⟨2, 6⟩, ⟨30, 40⟩, 0⟩]).vel.Sub ⟨3, 3⟩ =
        ((⟨1, 2⟩ : Vec).Sub ⟨3, 3⟩).Scaled (1 - copycatPower) := by
  have hX : (⟨3, 3⟩ : Vec).X = ([(⟨⟨4, 0⟩, ⟨10, 0⟩, 0⟩ : boid), ⟨⟨2, 6⟩, ⟨30, 40⟩, 0⟩].map
      (fun x => x.vel.X)).sum /
        ([(⟨⟨4, 0⟩, ⟨10, 0⟩, 0⟩ : boid), ⟨⟨2, 6⟩, ⟨30, 40⟩, 0⟩].length : ℝ) := by
    norm_num
  have hY : (⟨3, 3⟩ : Vec).Y = ([(⟨⟨4, 0⟩, ⟨10, 0⟩, 0⟩ : boid), ⟨⟨2, 6⟩, ⟨30, 40⟩, 0⟩].map
      (fun x => x.vel.Y)).sum /
        ([(⟨⟨4, 0⟩, ⟨10, 0⟩, 0⟩ : boid), ⟨⟨2, 6⟩, ⟨30, 40⟩, 0⟩].length : ℝ) := by
    norm_num
  exact ⟨⟨List.cons_ne_nil _ _, hX, hY⟩,
    (ruleMatchVelocity_contracts ⟨⟨1, 2⟩, ⟨0, 0⟩, 0⟩ _ ⟨3, 3⟩ (List.cons_ne_nil _ _) hX hY).1⟩

/-! ## Two boids -/

theorem ruleGetClose_one (g x : boid) :
    ruleGetClose g [x] =
      ⟨⟨g.vel.X + (x.loc.X - g.loc.X) * boidTightness,
        g.vel.Y + (x.loc.Y - g.loc.Y) * boidTightness⟩, g.loc, g.angle⟩ := by
  simp [ruleGetClose, ZV, Vec.Add, Vec.Sub, Vec.Scaled]

theorem ruleDontCrowd_one_near (g x : boid)
    (hnear : (g.loc.Sub x.loc).Len < personalSpaceSize) :
    ruleDontCrowd g [x] =
      ⟨⟨g.vel.X + (g.loc.X - x.loc.X) * personalSpacePower,
        g.vel.Y + (g.loc.Y - x.loc.Y) * personalSpacePower⟩, g.loc, g.angle⟩ := by
  unfold ruleDontCrowd
  simp only [List.length_singleton, Nat.le_zero, one_ne_zero, if_false, List.foldl_cons,
    List.foldl_nil, if_pos hnear]
  simp [ZV, Vec.Add, Vec.Sub, Vec.Scaled]

theorem ruleMatchVelocity_one (g x : boid) :
    ruleMatchVelocity g [x] =
      ⟨⟨g.vel.X + (x.vel.X - g.vel.X) * copycatPower,
        g.vel.Y + (x.vel.Y - g.vel.Y) * copycatPower⟩, g.loc, g.angle⟩ := by
  simp [ruleMatchVelocity, ZV, Vec.Add, Vec.Sub, Vec.Scaled]

theorem pipeline_one_near (g x : boid) (w : Vec)
    (hwX : w.X = (g.vel.X + (x.loc.X - g.loc.X) * boidTightness
      + (g.loc.X - x.loc.X) * personalSpacePower) * (1 - copycatPower) + x.vel.X * copycatPower)
    (hwY : w.Y = (g.vel.Y + (x.loc.Y - g.loc.Y) * boidTightness
      + (g.loc.Y - x.loc.Y) * personalSpacePower) * (1 - copycatPower) + x.vel.Y * copycatPower)
    (hnear : (g.loc.Sub x.loc).Len < personalSpaceSize)
    (hx0 : 0 ≤ g.loc.X) (hx1 : g.loc.X ≤ screenmaxX)
    (hy0 : 0 ≤ g.loc.Y) (hy1 : g.loc.Y ≤ screenmaxY)
    (hslow : w.Len ≤ speedCap) :
    pipeline g [x] = ⟨w, g.loc.Add w, w.Angle⟩ := by
  have h3 : ruleMatchVelocity (ruleDontCrowd (ruleGetClose g [x]) [x]) [x] = ⟨w, g.loc, g.angle⟩ := by
    rw [ruleGetClose_one, ruleDontCrowd_one_near
      ⟨⟨g.vel.X + (x.loc.X - g.loc.X) * boidTightness,
        g.vel.Y + (x.loc.Y - g.loc.Y) * boidTightness⟩, g.loc, g.angle⟩ x hnear,
      ruleMatchVelocity_one]
    simp only [boid.mk.injEq, and_true]
    rw [Vec.ext_iff2]
    simp only [hwX, hwY]
    constructor <;> ring
  unfold pipeline
  rw [h3, ruleStayOnScreen_of_inside ⟨w, g.loc, g.angle⟩ hx0 hx1 hy0 hy1,
    ruleSpeedCap_of_le ⟨w, g.loc, g.angle⟩ hslow, move_eq]

theorem neighbours_pair_fst (A B : boid) (hnear : (A.loc.Sub B.loc).Len < neighbourhood)
    (hne : A ≠ B) : neighbours A [A, B] = [1] := by
  simp [neighbours, neighboursFrom, hnear, hne]

theorem neighbours_pair_snd (A B : boid) (hnear : (B.loc.Sub A.loc).Len < neighbourhood)
    (hne : B ≠ A) : neighbours B [A, B] = [0] := by
  simp [neighbours, neighboursFrom, hnear, hne]

theorem frame_pair (A B : boid) :
    frame [A, B] =
      [pipeline A (deref [A, B] (neighbours A [A, B])),
        pipeline B (deref [pipeline A (deref [A, B] (neighbours A [A, B])), B]
          (neighbours B [pipeline A (deref [A, B] (neighbours A [A, B])), B]))] := by
  have h0 : updateBoid [A, B] 0 = [pipeline A (deref [A, B] (neighbours A [A, B])), B] :=
    updateBoid_eq [A, B] 0 A rfl
  have hr : List.range 2 = [0, 1] := rfl
  unfold frame
  rw [List.length_cons, List.length_singleton, hr, List.foldl_cons, List.foldl_cons,
    List.foldl_nil, h0]
  exact updateBoid_eq _ 1 B rfl

theorem frameSynchronized_pair (A B : boid) :
    frameSynchronized [A, B] =
      [pipeline A (deref [A, B] (neighbours A [A, B])),
        pipeline B (deref [A, B] (neighbours B [A, B]))] := rfl

theorem Vec.Len_Sub_lt (p q : Vec) (c : ℝ) (hc : 0 < c)
    (h : (p.X - q.X) * (p.X - q.X) + (p.Y - q.Y) * (p.Y - q.Y) < c ^ 2) :
    (p.Sub q).Len < c := by
  rw [Vec.Len_lt_iff _ _ hc]
  exact h

theorem separationGain_eq :
    (personalSpacePower - boidTightness) * (1 - copycatPower) = 0.00825888 := by
  unfold personalSpacePower boidTightness copycatPower f
  norm_num

/-- The frame of two boids at rest inside the screen whose squared distance is
`64`: the first gets the velocity `(q - p) * (-c)` and the second
`(q - p) * (c * (1 + c - copycatPower))`, with
`c = (personalSpacePower - boidTightness) * (1 - copycatPower)`. -/
theorem frame_pair_at_rest (px py qx qy aa ba c : ℝ)
    (hc : c = (personalSpacePower - boidTightness) * (1 - copycatPower))
    (hpx0 : 0 ≤ px) (hpx1 : px ≤ screenmaxX) (hpy0 : 0 ≤ py) (hpy1 : py ≤ screenmaxY)
    (hqx0 : 0 ≤ qx) (hqx1 : qx ≤ screenmaxX) (hqy0 : 0 ≤ qy) (hqy1 : qy ≤ screenmaxY)
    (hsq : (qx - px) * (qx - px) + (qy - py) * (qy - py) = 64) :
    frame [⟨⟨0, 0⟩, ⟨px, py⟩, aa⟩, ⟨⟨0, 0⟩, ⟨qx, qy⟩, ba⟩] =
      [⟨⟨(qx - px) * (-c), (qy - py) * (-c)⟩,
          ⟨px + (qx - px) * (-c), py + (qy - py) * (-c)⟩,
          (⟨(qx - px) * (-c), (qy - py) * (-c)⟩ : Vec).Angle⟩,
        ⟨⟨(qx - px) * (c * (1 + c - copycatPower)), (qy - py) * (c * (1 + c - copycatPower))⟩,
          ⟨qx + (qx - px) * (c * (1 + c - copycatPower)),
            qy + (qy - py) * (c * (1 + c - copycatPower))⟩,
          (⟨(qx - px) * (c * (1 + c - copycatPower)),
            (qy - py) * (c * (1 + c - copycatPower))⟩ : Vec).Angle⟩] := by
  have hcv : c = 0.00825888 := by rw [hc, separationGain_eq]
  have hk3 : copycatPower = 0.0168 := copycatPower_eq
  have hc0 : 0 < c := by rw [hcv]; norm_num
  have hc1 : c < 0.01 := by rw [hcv]; norm_num
  have hne : (⟨⟨0, 0⟩, ⟨px, py⟩, aa⟩ : boid) ≠ ⟨⟨0, 0⟩, ⟨qx, qy⟩, ba⟩ := by
    intro h
    simp only [boid.mk.injEq, Vec.mk.injEq, true_and] at h
    obtain ⟨⟨h1, h2⟩, _⟩ := h
    rw [h1, h2] at hsq
    norm_num at hsq
  have hn1 : neighbours (⟨⟨0, 0⟩, ⟨px, py⟩, aa⟩ : boid)
      [⟨⟨0, 0⟩, ⟨px, py⟩, aa⟩, ⟨⟨0, 0⟩, ⟨qx, qy⟩, ba⟩] = [1] := by
    apply neighbours_pair_fst _ _ _ hne
    apply Vec.Len_Sub_lt _ _ _ (by norm_num [neighbourhood])
    simp only [neighbourhood]
    nlinarith
  have hd1 : deref [(⟨⟨0, 0⟩, ⟨px, py⟩, aa⟩ : boid), ⟨⟨0, 0⟩, ⟨qx, qy⟩, ba⟩] [1]
      = [⟨⟨0, 0⟩, ⟨qx, qy⟩, ba⟩] := rfl
  have hA : pipeline (⟨⟨0, 0⟩, ⟨px, py⟩, aa⟩ : boid) [⟨⟨0, 0⟩, ⟨qx, qy⟩, ba⟩] =
      ⟨⟨(qx - px) * (-c), (qy - py) * (-c)⟩,
        ⟨px + (qx - px) * (-c), py + (qy - py) * (-c)⟩,
        (⟨(qx - px) * (-c), (qy - py) * (-c)⟩ : Vec).Angle⟩ := by
    apply pipeline_one_near _ _ ⟨(qx - px) * (-c), (qy - py) * (-c)⟩
    · simp only [hc]; ring
    · simp only [hc]; ring
    · apply Vec.Len_Sub_lt _ _ _ (by norm_num [personalSpaceSize])
      simp only [personalSpaceSize]
      nlinarith
    · exact hpx0
    · exact hpx1
    · exact hpy0
    · exact hpy1
    · rw [Vec.Len_le_iff _ _ (le_of_lt speedCap_pos)]
      simp only [speedCap]
      have e : (qx - px) * (-c) * ((qx - px) * (-c)) + (qy - py) * (-c) * ((qy - py) * (-c))
          = c ^ 2 * ((qx - px) * (qx - px) + (qy - py) * (qy - py)) := by ring
      rw [e, hsq]
      nlinarith
  rw [frame_pair, hn1, hd1, hA]
  have hne2 : (⟨⟨0, 0⟩, ⟨qx, qy⟩, ba⟩ : boid) ≠
      ⟨⟨(qx - px) * (-c), (qy - py) * (-c)⟩,
        ⟨px + (qx - px) * (-c), py + (qy - py) * (-c)⟩,
        (⟨(qx - px) * (-c), (qy - py) * (-c)⟩ : Vec).Angle⟩ := by
    intro h
    simp only [boid.mk.injEq, Vec.mk.injEq] at h
    obtain ⟨_, ⟨h1, h2⟩, _⟩ := h
    have e1 : (qx - px) * (1 + c) = 0 := by linarith
    have e2 : (qy - py) * (1 + c) = 0 := by linarith
    have hpos : (1 + c) ≠ 0 := by linarith
    have d1 : qx - px = 0 := (mul_eq_zero.mp e1).resolve_right hpos
    have d2 : qy - py = 0 := (mul_eq_zero.mp e2).resolve_right hpos
    rw [d1, d2] at hsq
    norm_num at hsq
  have hfar : (qx - (px + (qx - px) * (-c))) * (qx - (px + (qx - px) * (-c)))
      + (qy - (py + (qy - py) * (-c))) * (qy - (py + (qy - py) * (-c)))
      = (1 + c) ^ 2 * 64 := by
    rw [← hsq]
    ring
  have hn2 : neighbours (⟨⟨0, 0⟩, ⟨qx, qy⟩, ba⟩ : boid)
      [⟨⟨(qx - px) * (-c), (qy - py) * (-c)⟩,
        ⟨px + (qx - px) * (-c), py + (qy - py) * (-c)⟩,
        (⟨(qx - px) * (-c), (qy - py) * (-c)⟩ : Vec).Angle⟩, ⟨⟨0, 0⟩, ⟨qx, qy⟩, ba⟩] = [0] := by
    apply neighbours_pair_snd _ _ _ hne2
    apply Vec.Len_Sub_lt _ _ _ (by norm_num [neighbourhood])
    simp only [neighbourhood]
    rw [hfar]
    nlinarith
  have hd2 : deref [(⟨⟨(qx - px) * (-c), (qy - py) * (-c)⟩,
        ⟨px + (qx - px) * (-c), py + (qy - py) * (-c)⟩,
        (⟨(qx - px) * (-c), (qy - py) * (-c)⟩ : Vec).Angle⟩ : boid), ⟨⟨0, 0⟩, ⟨qx, qy⟩, ba⟩] [0]
      = [⟨⟨(qx - px) * (-c), (qy - py) * (-c)⟩,
        ⟨px + (qx - px) * (-c), py + (qy - py) * (-c)⟩,
        (⟨(qx - px) * (-c), (qy - py) * (-c)⟩ : Vec).Angle⟩] := rfl
  have hB : pipeline (⟨⟨0, 0⟩, ⟨qx, qy⟩, ba⟩ : boid)
      [⟨⟨(qx - px) * (-c), (qy - py) * (-c)⟩,
        ⟨px + (qx - px) * (-c), py + (qy - py) * (-c)⟩,
        (⟨(qx - px) * (-c), (qy - py) * (-c)⟩ : Vec).Angle⟩] =
      ⟨⟨(qx - px) * (c * (1 + c - copycatPower)), (qy - py) * (c * (1 + c - copycatPower))⟩,
        ⟨qx + (qx - px) * (c * (1 + c - copycatPower)),
          qy + (qy - py) * (c * (1 + c - copycatPower))⟩,
        (⟨(qx - px) * (c * (1 + c - copycatPower)),
          (qy - py) * (c * (1 + c - copycatPower))⟩ : Vec).Angle⟩ := by
    apply pipeline_one_near _ _
      ⟨(qx - px) * (c * (1 + c - copycatPower)), (qy - py) * (c * (1 + c - copycatPower))⟩
    · simp only [hc]; ring
    · simp only [hc]; ring
    · apply Vec.Len_Sub_lt _ _ _ (by norm_num [personalSpaceSize])
      simp only [personalSpaceSize]
      rw [hfar]
      nlinarith
    · exact hqx0
    · exact hqx1
    · exact hqy0
    · exact hqy1
    · rw [Vec.Len_le_iff _ _ (le_of_lt speedCap_pos)]
      simp only [speedCap]
      have e : (qx - px) * (c * (1 + c - copycatPower)) * ((qx - px) * (c * (1 + c - copycatPower)))
          + (qy - py) * (c * (1 + c - copycatPower)) * ((qy - py) * (c * (1 + c - copycatPower)))
          = (c * (1 + c - copycatPower)) ^ 2
            * ((qx - px) * (qx - px) + (qy - py) * (qy - py)) := by ring
      rw [e, hsq, hk3, hcv]
      norm_num
  rw [hn2, hd2, hB]

theorem Len_eight : ((⟨108, 100⟩ : Vec).Sub ⟨100, 100⟩).Len = personalSpaceSize / 2 := by
  have e : ((108 : ℝ) - 100) * (108 - 100) + (100 - 100) * (100 - 100) = 8 ^ 2 := by norm_num
  unfold Vec.Len Vec.Sub
  simp only
  rw [e, Real.sqrt_sq (by norm_num)]
  norm_num [personalSpaceSize]

/-- C13: two boids `A` (first) and `B` (second) at rest inside the screen, at
distance `personalSpaceSize / 2` from each other: after one frame both
velocities are non-zero, the one of `A` is `B.loc - A.loc` scaled by a negative
factor and the one of `B` is `B.loc - A.loc` scaled by a positive factor. -/
theorem forced_separation (A B : boid) (hA : A.vel = ZV) (hB : B.vel = ZV)
    (hAx0 : 0 ≤ A.loc.X) (hAx1 : A.loc.X ≤ screenmaxX)
    (hAy0 : 0 ≤ A.loc.Y) (hAy1 : A.loc.Y ≤ screenmaxY)
    (hBx0 : 0 ≤ B.loc.X) (hBx1 : B.loc.X ≤ screenmaxX)
    (hBy0 : 0 ≤ B.loc.Y) (hBy1 : B.loc.Y ≤ screenmaxY)
    (hd : (B.loc.Sub A.loc).Len = personalSpaceSize / 2) :
    ∃ A2 B2 : boid, frame [A, B] = [A2, B2] ∧ A2.vel ≠ ZV ∧ B2.vel ≠ ZV ∧
      (∃ c : ℝ, c < 0 ∧ A2.vel = (B.loc.Sub A.loc).Scaled c) ∧
      (∃ c : ℝ, 0 < c ∧ B2.vel = (B.loc.Sub A.loc).Scaled c) := by
  obtain ⟨⟨avx, avy⟩, ⟨px, py⟩, aa⟩ := A
  obtain ⟨⟨bvx, bvy⟩, ⟨qx, qy⟩, ba⟩ := B
  simp only [ZV, Vec.mk.injEq] at hA hB
  obtain ⟨rfl, rfl⟩ := hA
  obtain ⟨rfl, rfl⟩ := hB
  simp only at hAx0 hAx1 hAy0 hAy1 hBx0 hBx1 hBy0 hBy1
  have hsq : (qx - px) * (qx - px) + (qy - py) * (qy - py) = 64 := by
    have h := Vec.Len_mul_self ((⟨qx, qy⟩ : Vec).Sub ⟨px, py⟩)
    simp only at hd
    rw [hd] at h
    simp only [Vec.Sub, personalSpaceSize] at h
    rw [← h]
    norm_num
  have hcv := separationGain_eq
  have hk3 := copycatPower_eq
  have hd0 : ¬ (qx - px = 0 ∧ qy - py = 0) := by
    rintro ⟨d1, d2⟩
    rw [d1, d2] at hsq
    norm_num at hsq
  have hc0 : 0 < (personalSpacePower - boidTightness) * (1 - copycatPower) := by
    rw [hcv]; norm_num
  have hc2 : 0 < (personalSpacePower - boidTightness) * (1 - copycatPower)
      * (1 + (personalSpacePower - boidTightness) * (1 - copycatPower) - copycatPower) := by
    rw [hcv, hk3]; norm_num
  refine ⟨_, _, frame_pair_at_rest px py qx qy aa ba _ rfl hAx0 hAx1 hAy0 hAy1 hBx0 hBx1
    hBy0 hBy1 hsq, ?_, ?_, ⟨_, neg_lt_zero.mpr hc0, rfl⟩, ⟨_, hc2, rfl⟩⟩
  · intro h
    simp only [ZV, Vec.mk.injEq] at h
    have hneg : -((personalSpacePower - boidTightness) * (1 - copycatPower)) ≠ 0 :=
      neg_ne_zero.mpr (ne_of_gt hc0)
    rcases mul_eq_zero.mp h.1 with h1 | h1
    · rcases mul_eq_zero.mp h.2 with h2 | h2
      · exact hd0 ⟨h1, h2⟩
      · exact absurd h2 hneg
    · exact absurd h1 hneg
  · intro h
    simp only [ZV, Vec.mk.injEq] at h
    rcases mul_eq_zero.mp h.1 with h1 | h1
    · rcases mul_eq_zero.mp h.2 with h2 | h2
      · exact hd0 ⟨h1, h2⟩
      · exact absurd h2 (ne_of_gt hc2)
    · exact absurd h1 (ne_of_gt hc2)

theorem forced_separation_witness :
    ((ZV = ZV ∧ ZV = ZV) ∧
        ((0 : ℝ) ≤ 100 ∧ (100 : ℝ) ≤ screenmaxX ∧ (0 : ℝ) ≤ 100 ∧ (100 : ℝ) ≤ screenmaxY) ∧
        ((0 : ℝ) ≤ 108 ∧ (108 : ℝ) ≤ screenmaxX ∧ (0 : ℝ) ≤ 100 ∧ (100 : ℝ) ≤ screenmaxY) ∧
        ((⟨108, 100⟩ : Vec).Sub ⟨100, 100⟩).Len = personalSpaceSize / 2) ∧
      ∃ A2 B2 : boid,
        frame [⟨ZV, ⟨100, 100⟩, 0⟩, ⟨ZV, ⟨108, 100⟩, 0⟩] = [A2, B2] ∧ A2.vel ≠ ZV ∧
          B2.vel ≠ ZV ∧
          (∃ c : ℝ, c < 0 ∧ A2.vel = ((⟨108, 100⟩ : Vec).Sub ⟨100, 100⟩).Scaled c) ∧
          (∃ c : ℝ, 0 < c ∧ B2.vel = ((⟨108, 100⟩ : Vec).Sub ⟨100, 100⟩).Scaled c) :=
  ⟨⟨⟨rfl, rfl⟩, ⟨by norm_num, by norm_num [screenmaxX], by norm_num, by norm_num [screenmaxY]⟩,
      ⟨by norm_num, by norm_num [screenmaxX], by norm_num, by norm_num [screenmaxY]⟩,
      Len_eight⟩,
    forced_separation ⟨ZV, ⟨100, 100⟩, 0⟩ ⟨ZV, ⟨108, 100⟩, 0⟩ rfl rfl
      (by norm_num) (by norm_num [screenmaxX]) (by norm_num) (by norm_num [screenmaxY])
      (by norm_num) (by norm_num [screenmaxX]) (by norm_num) (by norm_num [screenmaxY])
      Len_eight⟩

/-! ## Sequential against synchronized update -/

theorem frameSynchronized_pair_snd_vel :
    ((frameSynchronized [⟨⟨0, 0⟩, ⟨100, 100⟩, 0⟩, ⟨⟨0, 0⟩, ⟨108, 100⟩, 0⟩])[1]?).map
        (fun b : boid => b.vel.X) = some ((8 : ℝ) * 0.00825888) := by
  have hne : (⟨⟨0, 0⟩, ⟨108, 100⟩, 0⟩ : boid) ≠ ⟨⟨0, 0⟩, ⟨100, 100⟩, 0⟩ := by
    intro h
    simp only [boid.mk.injEq, Vec.mk.injEq] at h
    norm_num at h
  have hn : neighbours (⟨⟨0, 0⟩, ⟨108, 100⟩, 0⟩ : boid)
      [⟨⟨0, 0⟩, ⟨100, 100⟩, 0⟩, ⟨⟨0, 0⟩, ⟨108, 100⟩, 0⟩] = [0] := by
    apply neighbours_pair_snd _ _ _ hne
    apply Vec.Len_Sub_lt _ _ _ (by norm_num [neighbourhood])
    norm_num [neighbourhood]
  have hd : deref [(⟨⟨0, 0⟩, ⟨100, 100⟩, 0⟩ : boid), ⟨⟨0, 0⟩, ⟨108, 100⟩, 0⟩] [0]
      = [⟨⟨0, 0⟩, ⟨100, 100⟩, 0⟩] := rfl
  have hB : pipeline (⟨⟨0, 0⟩, ⟨108, 100⟩, 0⟩ : boid) [⟨⟨0, 0⟩, ⟨100, 100⟩, 0⟩] =
      ⟨⟨8 * 0.00825888, 0⟩, (⟨108, 100⟩ : Vec).Add ⟨8 * 0.00825888, 0⟩,
        (⟨8 * 0.00825888, 0⟩ : Vec).Angle⟩ := by
    apply pipeline_one_near _ _ ⟨8 * 0.00825888, 0⟩
    · norm_num [boidTightness, personalSpacePower, copycatPower, f]
    · norm_num [boidTightness, personalSpacePower, copycatPower, f]
    · apply Vec.Len_Sub_lt _ _ _ (by norm_num [personalSpaceSize])
      norm_num [personalSpaceSize]
    · norm_num
    · norm_num [screenmaxX]
    · norm_num
    · norm_num [screenmaxY]
    · rw [Vec.Len_le_iff _ _ (le_of_lt speedCap_pos)]
      norm_num [speedCap]
  rw [frameSynchronized_pair, hn, hd, hB]
  simp only [List.getElem?_cons_succ, List.getElem?_cons_zero, Option.map_some']

theorem frame_pair_snd_vel :
    ((frame [⟨⟨0, 0⟩, ⟨100, 100⟩, 0⟩, ⟨⟨0, 0⟩, ⟨108, 100⟩, 0⟩])[1]?).map
        (fun b : boid => b.vel.X)
      = some ((8 : ℝ) * (0.00825888 * (1 + 0.00825888 - 0.0168))) := by
  rw [frame_pair_at_rest 100 100 108 100 0 0 0.00825888 separationGain_eq.symm
    (by norm_num) (by norm_num [screenmaxX]) (by norm_num) (by norm_num [screenmaxY])
    (by norm_num) (by norm_num [screenmaxX]) (by norm_num) (by norm_num [screenmaxY])
    (by norm_num), copycatPower_eq]
  simp only [List.getElem?_cons_succ, List.getElem?_cons_zero, Option.map_some', Option.some.injEq]
  norm_num

/-- C16: the frame is the in-order fold: the boid at index `i` is updated with
the neighbours found in, and read from, the population as the updates of the
indices before `i` left it.  For two boids at rest at `(100, 100)` and
`(108, 100)` the result differs from the synchronized update, where every boid
reads the population as it was before the frame; the boid at index `0` gets the
same new state under both, in every population. -/
theorem frame_sequential_not_synchronized :
    (∀ (guys : List boid) (i : Nat) (g : boid), guys[i]? = some g →
        (frame guys)[i]? =
          some (pipeline g (deref ((List.range i).foldl updateBoid guys)
            (neighbours g ((List.range i).foldl updateBoid guys))))) ∧
      frame [⟨⟨0, 0⟩, ⟨100, 100⟩, 0⟩, ⟨⟨0, 0⟩, ⟨108, 100⟩, 0⟩] ≠
        frameSynchronized [⟨⟨0, 0⟩, ⟨100, 100⟩, 0⟩, ⟨⟨0, 0⟩, ⟨108, 100⟩, 0⟩] ∧
      (∀ guys : List boid, (frame guys)[0]? = (frameSynchronized guys)[0]?) := by
  refine ⟨frame_getElem?, ?_, ?_⟩
  · intro h
    have h1 := frame_pair_snd_vel
    rw [h, frameSynchronized_pair_snd_vel] at h1
    norm_num at h1
  · intro guys
    cases guys with
    | nil => rfl
    | cons g rest =>
      rw [frame_getElem? (g :: rest) 0 g (List.getElem?_cons_zero)]
      simp [frameSynchronized]

theorem frame_sequential_not_synchronized_witness :
    [(⟨⟨0, 0⟩, ⟨100, 100⟩, 0⟩ : boid), ⟨⟨0, 0⟩, ⟨108, 100⟩, 0⟩][1]?
        = some ⟨⟨0, 0⟩, ⟨108, 100⟩, 0⟩ ∧
      (frame [⟨⟨0, 0⟩, ⟨100, 100⟩, 0⟩, ⟨⟨0, 0⟩, ⟨108, 100⟩, 0⟩])[1]? =
        some (pipeline ⟨⟨0, 0⟩, ⟨108, 100⟩, 0⟩
          (deref ((List.range 1).foldl updateBoid
              [⟨⟨0, 0⟩, ⟨100, 100⟩, 0⟩, ⟨⟨0, 0⟩, ⟨108, 100⟩, 0⟩])
            (neighbours ⟨⟨0, 0⟩, ⟨108, 100⟩, 0⟩ ((List.range 1).foldl updateBoid
              [⟨⟨0, 0⟩, ⟨100, 100⟩, 0⟩, ⟨⟨0, 0⟩, ⟨108, 100⟩, 0⟩])))) :=
  ⟨rfl, frame_sequential_not_synchronized.1 _ 1 _ rfl⟩

end Swarm

end
